import Mathlib

/-!
Verification development for the CabinetForge core: the CE-aware CAB layout
codec (`ce_cab_writer.py`), the archive model, and the manifest-coordinating
editor (`cab_editor.py`).  Python strings are embedded as lists of code
points (`PyStr`), byte buffers as lists of naturals below 256, and the
external clock is threaded explicitly.  Operations that can raise are
embedded as functions returning the raised error (if any) together with the
post state, since a Python method that raises after mutating `self` leaves
those mutations in place.
-/

namespace CabinetForge

/-- A Python string, embedded as its list of Unicode code points. -/
abbrev PyStr := List Nat

/-- Code points of a Lean string literal, used to write `PyStr` constants. -/
def str2cp (s : String) : PyStr := s.data.map Char.toNat

/-- Little-endian two-byte encoding, as `struct.pack "<H"` (the source only
packs values that fit, mirrored here by reducing modulo 2^16). -/
def u16le (x : Nat) : List Nat := [x % 256, x / 256 % 256]

/-- Little-endian four-byte encoding, as `struct.pack "<I"`. -/
def u32le (x : Nat) : List Nat :=
  [x % 256, x / 256 % 256, x / 65536 % 256, x / 16777216 % 256]

/-- Value of a little-endian byte list. -/
def leVal (bs : List Nat) : Nat := bs.foldr (fun b acc => b + 256 * acc) 0

/-- The slice `buf[off : off+n]`, with Python slice semantics: it is silently
shorter than `n` near the end of the buffer. -/
def readN (buf : List Nat) (off n : Nat) : List Nat := (buf.drop off).take n

/-- Index of the first zero byte at a position at least `start`, as
`buf.find(b"\x00", start)` (`none` plays the role of the -1 return). -/
def findZero (buf : List Nat) (start : Nat) : Option Nat :=
  match (buf.drop start).findIdx? (fun b => b == 0) with
  | some i => some (start + i)
  | none => none

/-- Fuelled loop for `chunkify` (structural recursion on the fuel; each step
consumes at least one element, so `l.length` steps always suffice). -/
def chunkifyGo (sz : Nat) : Nat → List α → List (List α)
  | _, [] => []
  | 0, _ :: _ => []
  | f + 1, a :: rest =>
    ((a :: rest).take (sz + 1)) :: chunkifyGo sz f ((a :: rest).drop (sz + 1))

/-- Split a list into consecutive chunks of `sz + 1` elements, as
`cabarchive.utils._chunkify` (an empty input yields no chunks). -/
def chunkify (sz : Nat) (l : List α) : List (List α) := chunkifyGo sz l.length l

/-- Encode a string to latin-1 with `errors="ignore"`: code points above 255
are dropped, the rest map to single bytes. -/
def encodeL1 (s : PyStr) : List Nat := s.filter (fun c => c < 256)

/-- Decode a latin-1 byte list: each byte is one code point. -/
def decodeL1 (bs : List Nat) : PyStr := bs

/-- The latin-1 fragment of Python `str.lower()` (all source names in scope
are ASCII; accented latin-1 capitals are included for faithfulness). -/
def pyLower (s : PyStr) : PyStr :=
  s.map (fun c =>
    if (65 ≤ c ∧ c ≤ 90) ∨ (192 ≤ c ∧ c ≤ 222 ∧ c ≠ 215) then c + 32 else c)

/-- The latin-1 fragment of Python `str.upper()`. -/
def pyUpper (s : PyStr) : PyStr :=
  s.map (fun c =>
    if (97 ≤ c ∧ c ≤ 122) ∨ (224 ≤ c ∧ c ≤ 254 ∧ c ≠ 247) then c - 32 else c)

/-- Fuelled accumulator loop for `natStr` (structural recursion on the fuel,
which never runs out since `n` needs at most `n` digit steps). -/
def natStrGo : Nat → Nat → PyStr → PyStr
  | 0, _, acc => acc
  | f + 1, n, acc =>
    if n = 0 then acc else natStrGo f (n / 10) ((48 + n % 10) :: acc)

/-- Decimal representation of a natural number, as code points (`str(n)`). -/
def natStr (n : Nat) : PyStr := if n = 0 then [48] else natStrGo n n []

/-- Python string comparison `a < b`: lexicographic on code points. -/
def cpLt : PyStr → PyStr → Bool
  | [], [] => false
  | [], _ :: _ => true
  | _ :: _, [] => false
  | a :: as, b :: bs => if a < b then true else if b < a then false else cpLt as bs

/-- Ascending insertion of one string into a sorted list. -/
def insSorted (x : PyStr) : List PyStr → List PyStr
  | [] => [x]
  | y :: ys => if cpLt y x then y :: insSorted x ys else x :: y :: ys

/-- Python `sorted` on strings: ascending lexicographic order. -/
def pySorted (l : List PyStr) : List PyStr := l.foldr insSorted []

/-- A calendar timestamp, standing for the `datetime.datetime` values the
source obtains from `datetime.now()`; the clock is threaded explicitly. -/
structure PyDateTime where
  year : Nat
  month : Nat
  day : Nat
  hour : Nat
  minute : Nat
  second : Nat
deriving DecidableEq, Repr

/-- MS-DOS 16-bit date encoding, per the spec's data model: date is a packed
16-bit year/month/day. -/
def dosDate (t : PyDateTime) : Nat := (t.year - 1980) * 512 + t.month * 32 + t.day

/-- MS-DOS 16-bit time encoding: hour/minute/(second halved). -/
def dosTime (t : PyDateTime) : Nat := t.hour * 2048 + t.minute * 32 + t.second / 2

/-- One CAB entry (cabarchive's `CabFile`): payload bytes, optional
modification time, attribute byte and optional on-wire win32 filename. -/
structure CabFile where
  buf : List Nat
  mtime : Option PyDateTime
  attrEnc : Nat
  fname32 : Option PyStr
deriving DecidableEq, Repr

/-- Modelled from the spec: the attributes byte of a freshly created entry
(the archive library stamps the DOS archive bit on new files). -/
def defaultAttr : Nat := 32

/-- The `CabFile(payload, mtime=datetime.now())` constructor calls made by
the editor. -/
def mkCabFile (payload : List Nat) (now : PyDateTime) : CabFile :=
  { buf := payload, mtime := some now, attrEnc := defaultAttr, fname32 := none }

/-- `CabFile._date_encode`: the DOS date of the stored time (0 when absent). -/
def CabFile.dateEnc (f : CabFile) : Nat :=
  match f.mtime with
  | some t => dosDate t
  | none => 0

/-- `CabFile._time_encode`: the DOS time of the stored time (0 when absent). -/
def CabFile.timeEnc (f : CabFile) : Nat :=
  match f.mtime with
  | some t => dosTime t
  | none => 0

/-- The insertion-ordered source-name → entry mapping (cabarchive's
`CabArchive`), with its cabinet-set identifier. -/
structure CabArchive where
  entries : List (PyStr × CabFile)
  set_id : Nat := 0
deriving DecidableEq, Repr

/-- `archive.keys()`, in insertion order. -/
def CabArchive.keys (a : CabArchive) : List PyStr := a.entries.map Prod.fst

/-- `archive.get(k)`: exact-key lookup. -/
def CabArchive.get (a : CabArchive) (k : PyStr) : Option CabFile :=
  (a.entries.find? (fun e => e.1 == k)).map Prod.snd

/-- `k in archive`: exact-key membership. -/
def CabArchive.mem (a : CabArchive) (k : PyStr) : Bool := a.keys.contains k

/-- `archive[k] = v`: replace in place when the key exists, else append. -/
def CabArchive.setItem (a : CabArchive) (k : PyStr) (v : CabFile) : CabArchive :=
  if a.mem k then
    { a with entries := a.entries.map (fun e => if e.1 == k then (k, v) else e) }
  else { a with entries := a.entries ++ [(k, v)] }

/-- `del archive[k]` (keys are unique, so filtering removes one entry). -/
def CabArchive.delItem (a : CabArchive) (k : PyStr) : CabArchive :=
  { a with entries := a.entries.filter (fun e => e.1 != k) }

/-- `archive[k]` where the caller has ensured the key exists (the source
would raise `KeyError` otherwise; every call site passes a present key). -/
def CabArchive.getF (a : CabArchive) (k : PyStr) : CabFile :=
  (a.get k).getD { buf := [], mtime := none, attrEnc := 0, fname32 := none }

/-- Layout data captured from an existing CAB (`CabLayoutTemplate`). -/
structure CabLayoutTemplate where
  set_id : Nat
  cb_cfheader : Nat
  cb_cffolder : Nat
  cb_cfdata : Nat
  header_reserve : List Nat
  folder_reserves : List (List Nat)
  file_order : List PyStr
  file_folders : List (PyStr × Nat)
deriving DecidableEq, Repr

/-- Python dict assignment `d[k] = v` on an association list: update the
existing binding in place, else append. -/
def assocSet (l : List (PyStr × Nat)) (k : PyStr) (v : Nat) : List (PyStr × Nat) :=
  if l.any (fun e => e.1 == k) then l.map (fun e => if e.1 == k then (k, v) else e)
  else l ++ [(k, v)]

/-- Python dict lookup `d.get(k)` on an association list. -/
def assocGet (l : List (PyStr × Nat)) (k : PyStr) : Option Nat :=
  (l.find? (fun e => e.1 == k)).map Prod.snd

/-- The folder-table loop of `parse_cab_layout`: step over `count` CFFOLDER
records, collecting each one's `cb_cffolder` reserve bytes. -/
def parseFolderReserves (buf : List Nat) (offset count cb_cffolder : Nat) :
    Option (List (List Nat) × Nat) :=
  match count with
  | 0 => some ([], offset)
  | n + 1 =>
    if offset + 8 ≤ buf.length then
      let reserve := if cb_cffolder ≠ 0 then readN buf (offset + 8) cb_cffolder else []
      match parseFolderReserves buf (offset + 8 + cb_cffolder) n cb_cffolder with
      | some (rs, off) => some (reserve :: rs, off)
      | none => none
    else none

/-- The file-table loop of `parse_cab_layout`: read `count` CFFILE records,
each followed by a NUL-terminated latin-1 name; keep (name, folder index). -/
def parseFileEntries (buf : List Nat) (offset count : Nat) :
    Option (List (PyStr × Nat)) :=
  match count with
  | 0 => some []
  | n + 1 =>
    if offset + 16 ≤ buf.length then
      let folderIdx := leVal (readN buf (offset + 8) 2)
      match findZero buf (offset + 16) with
      | some e =>
        let name := decodeL1 (readN buf (offset + 16) (e - (offset + 16)))
        match parseFileEntries buf (e + 1) n with
        | some rest => some ((name, folderIdx) :: rest)
        | none => none
      | none => none
    else none

/-- `parse_cab_layout`: parse minimal CAB layout state needed for CE-safe
repacks, or `None` on any structural failure. -/
def parse_cab_layout (buf : List Nat) : Option CabLayoutTemplate :=
  if 36 ≤ buf.length then
    if readN buf 0 4 = [77, 83, 67, 70] then
      let off_cffile := leVal (readN buf 16 4)
      let nr_folders := leVal (readN buf 26 2)
      let nr_files := leVal (readN buf 28 2)
      let flags := leVal (readN buf 30 2)
      let set_id := leVal (readN buf 32 2)
      let step1 : Option (Nat × Nat × Nat × List Nat × Nat) :=
        if flags.testBit 2 then
          if 36 + 4 ≤ buf.length then
            some (leVal (readN buf 36 2), leVal (readN buf 38 1),
              leVal (readN buf 39 1), readN buf 40 (leVal (readN buf 36 2)),
              40 + leVal (readN buf 36 2))
          else none
        else some (0, 0, 0, [], 36)
      match step1 with
      | none => none
      | some (cbh, cbf, cbd, hres, off0) =>
        match parseFolderReserves buf off0 nr_folders cbf with
        | none => none
        | some (fres, _) =>
          match parseFileEntries buf off_cffile nr_files with
          | none => none
          | some files =>
            some { set_id := set_id, cb_cfheader := cbh, cb_cffolder := cbf,
                   cb_cfdata := cbd, header_reserve := hres,
                   folder_reserves := fres, file_order := files.map Prod.fst,
                   file_folders := files.foldl (fun m e => assocSet m e.1 e.2) [] }
    else none
  else none

/-- `_order_names`: names of the template's `file_order` still present in the
archive, in template order, then the remaining names — sorted when `sort` is
true, else in Python set-iteration order.  The source iterates
`set(archive.keys())`, whose order is unspecified; that enumeration is the
`setEnum` argument (theorems constrain it to permutations where it matters). -/
def order_names (setEnum : List PyStr → List PyStr) (keys : List PyStr)
    (template : Option CabLayoutTemplate) (sort : Bool) : List PyStr :=
  let step := fun (st : List PyStr × List PyStr) (name : PyStr) =>
    if st.2.contains name then (st.1 ++ [name], st.2.erase name) else st
  let st :=
    match template with
    | some t => t.file_order.foldl step ([], keys)
    | none => (([] : List PyStr), keys)
  st.1 ++ (if sort then pySorted st.2 else setEnum st.2)

/-- `_FolderBuild`. -/
structure FolderBuild where
  folder_key : Nat
  names : List PyStr
  reserve : List Nat
  blocks : List (List Nat × Nat)
deriving DecidableEq, Repr

/-- `keyed.setdefault(key, []).append(name)`: dicts keep first-appearance key
order, appending the name to the key's group. -/
def keyedInsert (keyed : List (Nat × List PyStr)) (k : Nat) (n : PyStr) :
    List (Nat × List PyStr) :=
  if keyed.any (fun e => e.1 == k) then
    keyed.map (fun e => if e.1 == k then (e.1, e.2 ++ [n]) else e)
  else keyed ++ [(k, [n])]

/-- `max(template.file_folders.values(), default=-1) + 1`. -/
def nextKeyStart (ff : List (PyStr × Nat)) : Nat :=
  match ff with
  | [] => 0
  | _ => (ff.map Prod.snd).foldl max 0 + 1

/-- The folder-assignment loop of `_build_folders`: template folder keys when
present, else fresh keys counting up from `nextKeyStart`. -/
def buildKeyed (t : CabLayoutTemplate) (ordered : List PyStr) :
    List (Nat × List PyStr) :=
  (ordered.foldl (fun (st : List (Nat × List PyStr) × Nat) name =>
      match assocGet t.file_folders name with
      | some k => (keyedInsert st.1 k name, st.2)
      | none => (keyedInsert st.1 st.2 name, st.2 + 1))
    ([], nextKeyStart t.file_folders)).1

/-- `_build_folders`: group ordered names into folders, pick each folder's
reserve (padded or truncated to `cb_cffolder`), concatenate payloads, split
into 0x8000-byte chunks (an empty payload still yields one empty chunk), and
encode each chunk — `C K` plus raw DEFLATE when compressing.  The `defl`
argument stands for zlib raw DEFLATE at level 9. -/
def build_folders (defl : List Nat → List Nat) (archive : CabArchive)
    (ordered : List PyStr) (t : CabLayoutTemplate) (compress : Bool) :
    List FolderBuild :=
  (buildKeyed t ordered).map (fun kv =>
    let reserve0 :=
      if kv.1 < t.folder_reserves.length then t.folder_reserves.getD kv.1 []
      else List.replicate t.cb_cffolder 0
    let reserve1 :=
      if reserve0.length < t.cb_cffolder then
        reserve0 ++ List.replicate (t.cb_cffolder - reserve0.length) 0
      else reserve0
    let raw := (kv.2.map (fun n => (archive.getF n).buf)).flatten
    let chunks0 := chunkify 0x7FFF raw
    let chunks := if chunks0.isEmpty then [[]] else chunks0
    { folder_key := kv.1, names := kv.2, reserve := reserve1.take t.cb_cffolder,
      blocks := chunks.map (fun plain =>
        (if compress then 67 :: 75 :: defl plain else plain, plain.length)) })

/-- `_build_uncompressed_offsets`: per folder, each name's offset is the sum
of the payload lengths of the folder's earlier files. -/
def build_uncompressed_offsets (archive : CabArchive)
    (folders : List FolderBuild) : List (PyStr × Nat) :=
  (folders.map (fun f =>
    (f.names.foldl (fun (st : List (PyStr × Nat) × Nat) n =>
      (st.1 ++ [(n, st.2)], st.2 + (archive.getF n).buf.length)) ([], 0)).1)).flatten

/-- The `folder_index_by_name` table of `build_ce_cab_bytes`. -/
def folderIndexByName (folders : List FolderBuild) : List (PyStr × Nat) :=
  (folders.enum.map (fun p => p.2.names.map (fun n => (n, p.1)))).flatten

/-- `_build_cffile_blob`: one fixed CFFILE record per ordered name (preferring
a stored win32 filename on the wire) followed by the NUL-terminated name. -/
def build_cffile_blob (archive : CabArchive) (ordered : List PyStr)
    (offsets folderIdx : List (PyStr × Nat)) : List Nat :=
  (ordered.map (fun name =>
    let f := archive.getF name
    u32le f.buf.length ++ u32le ((assocGet offsets name).getD 0) ++
      u16le ((assocGet folderIdx name).getD 0) ++ u16le f.dateEnc ++
      u16le f.timeEnc ++ u16le f.attrEnc ++ encodeL1 (f.fname32.getD name) ++ [0])).flatten

/-- Modelled from the spec: the CAB block checksum primitive of the external
archive library (`cabarchive.utils._checksum_compute`): XOR of little-endian
32-bit words, a residual tail accumulated as a partial little-endian word,
with a seed threaded through successive calls. -/
def checksum_compute (content : List Nat) (seed : Nat) : Nat :=
  (chunkify 3 content).foldl (fun csum chunk => csum ^^^ leVal chunk) seed

/-- One CFDATA block of `_build_folder_and_data_blobs`: checksum over the
encoded bytes, folded with the 4-byte size header, then the fixed record,
`cb_cfdata` reserve NULs, and the encoded payload. -/
def blockBytes (cb_cfdata : Nat) (b : List Nat × Nat) : List Nat :=
  let checksum := checksum_compute b.1 0
  let checksum2 := checksum_compute (u16le b.1.length ++ u16le b.2) checksum
  u32le checksum2 ++ u16le b.1.length ++ u16le b.2 ++
    List.replicate cb_cfdata 0 ++ b.1

/-- One folder step of `_build_folder_and_data_blobs`: emit the folder's data
blocks, then its CFFOLDER record pointing at the running cursor, advancing
the cursor by the folder's emitted data bytes. -/
def folderDataStep (cb_cffolder cb_cfdata : Nat) (compress : Bool)
    (st : List Nat × List Nat × Nat) (f : FolderBuild) :
    List Nat × List Nat × Nat :=
  let data := (f.blocks.map (blockBytes cb_cfdata)).flatten
  let frec := u32le st.2.2 ++ u16le f.blocks.length ++
    u16le (if compress then 1 else 0) ++ (if cb_cffolder ≠ 0 then f.reserve else [])
  (st.1 ++ frec, st.2.1 ++ data, st.2.2 + data.length)

/-- `_build_folder_and_data_blobs`. -/
def build_folder_and_data_blobs (folders : List FolderBuild)
    (cfdata_start cb_cffolder cb_cfdata : Nat) (compress : Bool) :
    List Nat × List Nat :=
  let st := folders.foldl (folderDataStep cb_cffolder cb_cfdata compress)
    ([], [], cfdata_start)
  (st.1, st.2.1)

/-- `struct.pack(FMT_CFHEADER, b"MSCF", cabinet_size, coff_files, 3, 1,
folder_count, file_count, flags, set_id, 0)`: the 36-byte fixed CFHEADER with
zeroed pad bytes. -/
def packCFHeader (cabinet_size coff_files folder_count file_count flags set_id : Nat) :
    List Nat :=
  [77, 83, 67, 70] ++ List.replicate 4 0 ++ u32le cabinet_size ++
    List.replicate 4 0 ++ u32le coff_files ++ List.replicate 4 0 ++ [3, 1] ++
    u16le folder_count ++ u16le file_count ++ u16le flags ++ u16le set_id ++ u16le 0

/-- The default template `build_ce_cab_bytes` builds when none is given. -/
def defaultTemplate (archive : CabArchive) : CabLayoutTemplate :=
  { set_id := archive.set_id, cb_cfheader := 0, cb_cffolder := 0, cb_cfdata := 0,
    header_reserve := [], folder_reserves := [], file_order := [], file_folders := [] }

/-- `build_ce_cab_bytes`: render an archive to CAB bytes preserving
CE-sensitive layout fields, or fail on an empty archive. -/
def build_ce_cab_bytes (defl : List Nat → List Nat)
    (setEnum : List PyStr → List PyStr) (archive : CabArchive) (compress : Bool)
    (template : Option CabLayoutTemplate) (sort : Bool) :
    Except PyStr (List Nat) :=
  let ordered := order_names setEnum archive.keys template sort
  if ordered.isEmpty then .error (str2cp "CAB cannot be empty")
  else
    let t := template.getD (defaultTemplate archive)
    let use_reserve := (t.cb_cfheader != 0) || (t.cb_cffolder != 0) ||
      (t.cb_cfdata != 0) || !t.header_reserve.isEmpty
    let folder_builds := build_folders defl archive ordered t compress
    if folder_builds.length = 0 then .error (str2cp "CAB cannot be empty")
    else
      let header_size := 36 + (if use_reserve then 4 + t.cb_cfheader else 0)
      let coff_files := header_size + folder_builds.length * (8 + t.cb_cffolder)
      let cffile_blob := build_cffile_blob archive ordered
        (build_uncompressed_offsets archive folder_builds)
        (folderIndexByName folder_builds)
      let blobs := build_folder_and_data_blobs folder_builds
        (coff_files + cffile_blob.length) t.cb_cffolder t.cb_cfdata compress
      let cabinet_size := header_size + blobs.1.length + cffile_blob.length +
        blobs.2.length
      let header := packCFHeader cabinet_size coff_files folder_builds.length
        ordered.length (if use_reserve then 4 else 0) t.set_id
      let reserve_part :=
        if use_reserve then
          u16le t.cb_cfheader ++ [t.cb_cffolder % 256, t.cb_cfdata % 256] ++
            (let r := t.header_reserve.take t.cb_cfheader
             r ++ List.replicate (t.cb_cfheader - r.length) 0)
        else []
      .ok (header ++ reserve_part ++ blobs.1 ++ cffile_blob ++ blobs.2)

mutual

/-- An ElementTree element: tag, insertion-ordered attributes, children (the
manifests handled by the editor carry no text nodes).  The children sit in a
mutually inductive forest so that tree recursion stays structural. -/
inductive XmlElem where
  | node (tag : PyStr) (attrs : List (PyStr × PyStr)) (children : XmlForest)
  deriving DecidableEq

/-- A list of sibling elements. -/
inductive XmlForest where
  | nil
  | cons (h : XmlElem) (t : XmlForest)
  deriving DecidableEq

end

/-- View a forest as a list. -/
def XmlForest.toList : XmlForest → List XmlElem
  | .nil => []
  | .cons h t => h :: t.toList

/-- Build a forest from a list. -/
def XmlForest.ofList : List XmlElem → XmlForest
  | [] => .nil
  | h :: t => .cons h (XmlForest.ofList t)

/-- Element constructor taking the children as a list. -/
def xmlNode (tag : PyStr) (attrs : List (PyStr × PyStr))
    (children : List XmlElem) : XmlElem :=
  .node tag attrs (.ofList children)

/-- The element's tag. -/
def XmlElem.tag : XmlElem → PyStr
  | .node t _ _ => t

/-- The element's attribute list. -/
def XmlElem.attrs : XmlElem → List (PyStr × PyStr)
  | .node _ a _ => a

/-- The element's children, as a forest. -/
def XmlElem.childrenF : XmlElem → XmlForest
  | .node _ _ c => c

/-- The element's children, as a list. -/
def XmlElem.children (e : XmlElem) : List XmlElem := e.childrenF.toList

/-- `elem.attrib.get(k)`. -/
def XmlElem.attrGet (e : XmlElem) (k : PyStr) : Option PyStr :=
  (e.attrs.find? (fun p => p.1 == k)).map Prod.snd

/-- `elem.attrib.get(k, "")`. -/
def XmlElem.attrGetD (e : XmlElem) (k : PyStr) : PyStr := (e.attrGet k).getD []

/-- `elem.set(k, v)`: update the attribute in place, else append it. -/
def XmlElem.attrSet (e : XmlElem) (k v : PyStr) : XmlElem :=
  .node e.tag
    (if e.attrs.any (fun p => p.1 == k) then
      e.attrs.map (fun p => if p.1 == k then (k, v) else p)
    else e.attrs ++ [(k, v)])
    e.childrenF

/-- Matches `characteristic[@type='ty']`. -/
def isCharType (ty : PyStr) (e : XmlElem) : Bool :=
  e.tag == str2cp "characteristic" && e.attrGetD (str2cp "type") == ty

/-- Matches `parm[@name='nm']`. -/
def isParmName (nm : PyStr) (e : XmlElem) : Bool :=
  e.tag == str2cp "parm" && e.attrGetD (str2cp "name") == nm

/-- `elem.find("./characteristic[@type='ty']")`: first matching child. -/
def findChildCharType (e : XmlElem) (ty : PyStr) : Option XmlElem :=
  e.children.find? (isCharType ty)

/-- `file_node.find("./characteristic[@type='Extract']/parm[@name='Source']")`:
the first Source parm under any Extract child, in document order. -/
def findExtractSource (file_node : XmlElem) : Option XmlElem :=
  ((file_node.children.filter (isCharType (str2cp "Extract"))).map
    (fun x => x.children.filter (isParmName (str2cp "Source")))).flatten.head?

mutual

/-- All descendants of an element in document (preorder) order, as ET's
`findall(".//...")` enumerates before tag filtering. -/
def XmlElem.descendants : XmlElem → List XmlElem
  | .node _ _ cs => cs.descList

/-- Preorder descendant enumeration of a forest. -/
def XmlForest.descList : XmlForest → List XmlElem
  | .nil => []
  | .cons h t => h :: (h.descendants ++ t.descList)

end

/-- `iter_file_nodes`: (parent, file node, Source parm) triples — every
characteristic descendant of the FileOperation element is a parent
candidate, its characteristic children the file nodes. -/
def iter_file_nodes (root : XmlElem) : List (XmlElem × XmlElem × XmlElem) :=
  match findChildCharType root (str2cp "FileOperation") with
  | none => []
  | some fileop =>
    ((fileop.descendants.filter (fun e => e.tag == str2cp "characteristic")).map
      (fun parent =>
        (parent.children.filter (fun e => e.tag == str2cp "characteristic")).filterMap
          (fun fn => (findExtractSource fn).map (fun x => (parent, fn, x))))).flatten

/-- The child scan of `remove_xml_file_node` for one parent: drop the first
characteristic child whose Extract/Source value matches case-insensitively. -/
def removeMatchingIn (src : PyStr) : List XmlElem → Option (List XmlElem)
  | [] => none
  | c :: cs =>
    if c.tag == str2cp "characteristic" then
      match findExtractSource c with
      | some x =>
        if pyLower (x.attrGetD (str2cp "value")) == pyLower src then some cs
        else (removeMatchingIn src cs).map (c :: ·)
      | none => (removeMatchingIn src cs).map (c :: ·)
    else (removeMatchingIn src cs).map (c :: ·)

mutual

/-- The parent walk of `remove_xml_file_node` over the subtree rooted at `e`:
`e` is the first parent candidate (when it is a characteristic element),
then its descendants in document order; the result is the rebuilt subtree. -/
def tryRemoveSubtree (src : PyStr) : XmlElem → Option XmlElem
  | .node t a cs =>
    match (if t == str2cp "characteristic" then removeMatchingIn src cs.toList
           else none) with
    | some cs2 => some (.node t a (.ofList cs2))
    | none =>
      match tryRemoveForest src cs with
      | some cs2 => some (.node t a cs2)
      | none => none

/-- Walk a sibling forest, keeping everything before the first subtree in
which a removal succeeds. -/
def tryRemoveForest (src : PyStr) : XmlForest → Option XmlForest
  | .nil => none
  | .cons c cs =>
    match tryRemoveSubtree src c with
    | some c2 => some (.cons c2 cs)
    | none => (tryRemoveForest src cs).map (.cons c ·)

end

/-- Replace the first child satisfying `p`. -/
def replaceFirst (p : XmlElem → Bool) (repl : XmlElem) : List XmlElem → List XmlElem
  | [] => []
  | c :: cs => if p c then repl :: cs else c :: replaceFirst p repl cs

/-- Apply `f` to the first child satisfying `p`. -/
def mapFirst (p : XmlElem → Bool) (f : XmlElem → XmlElem) :
    List XmlElem → List XmlElem
  | [] => []
  | c :: cs => if p c then f c :: cs else c :: mapFirst p f cs

/-- `remove_xml_file_node`: remove the file mapping node matched by source
name (case-insensitive); returns the updated root and whether one was
removed. -/
def remove_xml_file_node (root : XmlElem) (source_name : PyStr) :
    XmlElem × Bool :=
  match findChildCharType root (str2cp "FileOperation") with
  | none => (root, false)
  | some fileop =>
    match tryRemoveForest source_name fileop.childrenF with
    | some cs =>
      (xmlNode root.tag root.attrs
        (replaceFirst (isCharType (str2cp "FileOperation"))
          (.node fileop.tag fileop.attrs cs) root.children), true)
    | none => (root, false)

/-- `elem.append(child)`. -/
def appendChild (e : XmlElem) (c : XmlElem) : XmlElem :=
  xmlNode e.tag e.attrs (e.children ++ [c])

/-- The node built by `append_xml_file_node`. -/
def newFileNode (display source : PyStr) : XmlElem :=
  xmlNode (str2cp "characteristic")
    [(str2cp "type", display), (str2cp "translation", str2cp "install")]
    [xmlNode (str2cp "characteristic") [(str2cp "type", str2cp "Extract")]
      [xmlNode (str2cp "parm")
        [(str2cp "name", str2cp "Source"), (str2cp "value", source)] []]]

/-- Matches the `translation="install"` fallback of `resolve_target_parent`. -/
def isInstallChild (c : XmlElem) : Bool :=
  c.tag == str2cp "characteristic" &&
    c.attrGet (str2cp "translation") == some (str2cp "install")

/-- `resolve_target_parent` followed by `append_xml_file_node`, as one
functional tree update: append under the directory child whose type matches,
else the first child with translation="install", else the FileOperation
element itself; `none` exactly when FileOperation is missing. -/
def appendMapping (root : XmlElem) (directory display source : PyStr) :
    Option XmlElem :=
  match findChildCharType root (str2cp "FileOperation") with
  | none => none
  | some fileop =>
    let fn := newFileNode display source
    let fileop2 :=
      match (if directory.isEmpty then none else findChildCharType fileop directory) with
      | some _ =>
        xmlNode fileop.tag fileop.attrs
          (mapFirst (isCharType directory) (fun n => appendChild n fn) fileop.children)
      | none =>
        match fileop.children.find? isInstallChild with
        | some _ =>
          xmlNode fileop.tag fileop.attrs
            (mapFirst isInstallChild (fun n => appendChild n fn) fileop.children)
        | none => appendChild fileop fn
    some (xmlNode root.tag root.attrs
      (replaceFirst (isCharType (str2cp "FileOperation")) fileop2 root.children))

/-- The parm scan of the Install/NumFiles update within one Install element. -/
def setNumFilesInParms (v : PyStr) : List XmlElem → Option (List XmlElem)
  | [] => none
  | c :: cs =>
    if isParmName (str2cp "NumFiles") c then
      some (c.attrSet (str2cp "value") v :: cs)
    else (setNumFilesInParms v cs).map (c :: ·)

/-- The Install scan of the NumFiles update: ET's path `find` moves on to the
next Install child when one lacks the parm. -/
def setNumFilesInInstalls (v : PyStr) : List XmlElem → Option (List XmlElem)
  | [] => none
  | c :: cs =>
    if isCharType (str2cp "Install") c then
      match setNumFilesInParms v c.children with
      | some cs2 => some (xmlNode c.tag c.attrs cs2 :: cs)
      | none => (setNumFilesInInstalls v cs).map (c :: ·)
    else (setNumFilesInInstalls v cs).map (c :: ·)

/-- `_update_numfiles` on the tree: set the Install/NumFiles parm value to
the decimal count, a no-op when the parm is absent. -/
def update_numfiles_root (root : XmlElem) (count : Nat) : XmlElem :=
  match setNumFilesInInstalls (natStr count) root.children with
  | some cs => xmlNode root.tag root.attrs cs
  | none => root

/-- The current Install/NumFiles value, along the same path the update uses. -/
def numFilesValue (root : XmlElem) : Option PyStr :=
  ((root.children.filter (isCharType (str2cp "Install"))).map
    (fun c => (c.children.filter (isParmName (str2cp "NumFiles"))).map
      (fun p => p.attrGetD (str2cp "value")))).flatten.head?

/-- UTF-8 bytes of one code point. -/
def utf8Char (c : Nat) : List Nat :=
  if c < 128 then [c]
  else if c < 2048 then [192 + c / 64, 128 + c % 64]
  else if c < 65536 then [224 + c / 4096, 128 + c / 64 % 64, 128 + c % 64]
  else [240 + c / 262144, 128 + c / 4096 % 64, 128 + c / 64 % 64, 128 + c % 64]

/-- UTF-8 encoding of a code-point string. -/
def utf8 (s : PyStr) : List Nat := (s.map utf8Char).flatten

/-- ElementTree attribute-value escaping (the characters arising in scope). -/
def escAttr (s : PyStr) : PyStr :=
  (s.map (fun c =>
    if c = 38 then str2cp "&amp;"
    else if c = 60 then str2cp "&lt;"
    else if c = 62 then str2cp "&gt;"
    else if c = 34 then str2cp "&quot;"
    else [c])).flatten

mutual

/-- ElementTree element serialization: attributes in insertion order, empty
elements as self-closing tags. -/
def xmlSerialize : XmlElem → List Nat
  | .node tag attrs children =>
    let attrBytes := (attrs.map (fun p =>
      [32] ++ utf8 p.1 ++ [61, 34] ++ utf8 (escAttr p.2) ++ [34])).flatten
    match children with
    | .nil => [60] ++ utf8 tag ++ attrBytes ++ [32, 47, 62]
    | .cons h tl =>
      [60] ++ utf8 tag ++ attrBytes ++ [62] ++
        (xmlSerialize h ++ xmlSerializeF tl) ++ [60, 47] ++ utf8 tag ++ [62]

/-- Serialization of a sibling forest. -/
def xmlSerializeF : XmlForest → List Nat
  | .nil => []
  | .cons h t => xmlSerialize h ++ xmlSerializeF t

end

/-- The XML declaration ElementTree emits for encoding="utf-8". -/
def xmlDeclBytes : List Nat :=
  [60, 63, 120, 109, 108, 32, 118, 101, 114, 115, 105, 111, 110, 61, 39, 49,
   46, 48, 39, 32, 101, 110, 99, 111, 100, 105, 110, 103, 61, 39, 117, 116,
   102, 45, 56, 39, 63, 62, 10]

/-- Modelled from the spec: serialization is UTF-8 regardless of the load
encoding — `ET.tostring(root, encoding="utf-8")`, declaration included. -/
def xmlToBytes (root : XmlElem) : List Nat := xmlDeclBytes ++ xmlSerialize root

/-- A display row (`CabRecord`). -/
structure CabRecord where
  display_name : PyStr
  source_name : PyStr
  size : Nat
  modified : PyStr
  parent_type : PyStr
deriving DecidableEq, Repr

/-- Two-digit zero-padded decimal. -/
def pad2 (n : Nat) : PyStr :=
  if n < 10 then [48] ++ natStr n else natStr n

/-- `format_cabfile_time`: "YYYY-MM-DD HH:MM:SS" from the entry's stored
date and time, empty when no date is stored. -/
def format_cabfile_time (f : CabFile) : PyStr :=
  match f.mtime with
  | none => []
  | some t =>
    natStr t.year ++ [45] ++ pad2 t.month ++ [45] ++ pad2 t.day ++
      [32] ++ pad2 t.hour ++ [58] ++ pad2 t.minute ++ [58] ++ pad2 t.second

/-- A raised Python exception: its type and message. -/
inductive PyErr where
  | keyError (msg : PyStr)
  | valueError (msg : PyStr)
  | runtimeError (msg : PyStr)
deriving DecidableEq, Repr

/-- The mutable fields of `CabEditor`. -/
structure CabEditor where
  path : Option PyStr
  loaded_name : PyStr
  archive : Option CabArchive
  xml_root : Option XmlElem
  setup_encoding : PyStr
  records : List CabRecord
  directories : List PyStr
  signature_before : List (PyStr × PyStr)

/-- Outcome of an editor method: the raised error, if any, and the post
state — a method that raises after mutating `self` keeps those mutations. -/
structure OpOut where
  err : Option PyErr
  state : CabEditor

/-- `_rebuild_index`: recompute records and the install-directory view. -/
def rebuildIndex (ed : CabEditor) : CabEditor :=
  match ed.archive with
  | none => { ed with records := [], directories := [] }
  | some a =>
    match ed.xml_root with
    | none =>
      { ed with
        records := a.entries.map (fun e =>
          { display_name := e.1, source_name := e.1, size := e.2.buf.length,
            modified := format_cabfile_time e.2, parent_type := [] }),
        directories := [] }
    | some root =>
      let recs := (iter_file_nodes root).filterMap (fun t =>
        let display := t.2.1.attrGetD (str2cp "type")
        let source := t.2.2.attrGetD (str2cp "value")
        if display.isEmpty || source.isEmpty then none
        else
          match a.get source with
          | none => none
          | some f =>
            some { display_name := display, source_name := source,
                   size := f.buf.length, modified := format_cabfile_time f,
                   parent_type := t.1.attrGetD (str2cp "type") })
      { ed with records := recs,
                directories := pySorted ((recs.filterMap (fun r =>
                  if r.parent_type.head? = some 92 then some r.parent_type
                  else none)).dedup) }

/-- `_require_archive`: raises when no archive is loaded — `not self.archive`
is also true of a loaded but empty archive. -/
def requireArchive (ed : CabEditor) : Option PyErr :=
  match ed.archive with
  | none => some (.runtimeError (str2cp "No CAB loaded"))
  | some a =>
    if a.entries.isEmpty then some (.runtimeError (str2cp "No CAB loaded"))
    else none

/-- `_sync_setup_xml`: serialize the tree and install it as the `_setup.xml`
entry, stamped with the current time. -/
def syncSetupXml (ed : CabEditor) (now : PyDateTime) : CabEditor :=
  match ed.archive, ed.xml_root with
  | some a, some root =>
    if a.entries.isEmpty then ed
    else
      let a2 := a.setItem (str2cp "_setup.xml") (mkCabFile (xmlToBytes root) now)
      { ed with archive := some a2 }
  | _, _ => ed

/-- `CabEditor.update_file`: replace one payload by source identifier. -/
def CabEditor.update_file (ed : CabEditor) (source_name : PyStr)
    (payload : List Nat) (now : PyDateTime) : OpOut :=
  match requireArchive ed, ed.archive with
  | some e, _ => { err := some e, state := ed }
  | none, none => { err := some (.runtimeError (str2cp "No CAB loaded")), state := ed }
  | none, some a =>
    if ¬ a.mem source_name then
      { err := some (.keyError (str2cp "File not found in CAB")), state := ed }
    else if payload.isEmpty then
      { err := some (.valueError (str2cp "Uploaded file is empty")), state := ed }
    else
      { err := none,
        state := rebuildIndex
          { ed with archive := some (a.setItem source_name (mkCabFile payload now)) } }

/-- `CabEditor.remove_file`: the archive entry is deleted first; when a
manifest is present but matches no node, the method raises after that
deletion, leaving the archive mutated. -/
def CabEditor.remove_file (ed : CabEditor) (source_name : PyStr)
    (now : PyDateTime) : OpOut :=
  match requireArchive ed, ed.archive with
  | some e, _ => { err := some e, state := ed }
  | none, none => { err := some (.runtimeError (str2cp "No CAB loaded")), state := ed }
  | none, some a =>
    let a2 := if a.mem source_name then a.delItem source_name else a
    let ed2 := { ed with archive := some a2 }
    match ed.xml_root with
    | none => { err := none, state := rebuildIndex ed2 }
    | some root =>
      let rb := remove_xml_file_node root source_name
      if rb.2 then
        let ed3 := { ed2 with
          xml_root := some (update_numfiles_root rb.1 ed2.records.length) }
        { err := none, state := rebuildIndex (syncSetupXml ed3 now) }
      else
        { err := some (.keyError (str2cp "No matching _setup.xml entry")),
          state := ed2 }

/-- ASCII fragment of `str.strip()`. -/
def pyStrip (s : PyStr) : PyStr :=
  let ws := fun c => c == 32 || c == 9 || c == 10 || c == 13 || c == 11 || c == 12
  ((s.dropWhile ws).reverse.dropWhile ws).reverse

/-- The final path component (POSIX `pathlib.Path(...).name`). -/
def pathName (s : PyStr) : PyStr :=
  s.foldl (fun acc c => if c = 47 then [] else acc ++ [c]) []

/-- Index of the last occurrence of `c`. -/
def lastIdxOf (c : Nat) (n : PyStr) : Option Nat :=
  ((List.range n.length).filter (fun i => n.getD i 0 == c)).getLast?

/-- `pathlib.Path(...).stem`: the name minus its suffix; a dot at the start
or the very end does not begin a suffix. -/
def pathStem (s : PyStr) : PyStr :=
  let n := pathName s
  match lastIdxOf 46 n with
  | some i => if 0 < i ∧ i < n.length - 1 then n.take i else n
  | none => n

/-- `pathlib.Path(...).suffix`. -/
def pathSuffix (s : PyStr) : PyStr :=
  let n := pathName s
  match lastIdxOf 46 n with
  | some i => if 0 < i ∧ i < n.length - 1 then n.drop i else []
  | none => []

/-- The latin-1 fragment of `str.isalnum()`. -/
def isAlnumCp (c : Nat) : Bool :=
  (48 ≤ c && c ≤ 57) || (65 ≤ c && c ≤ 90) || (97 ≤ c && c ≤ 122) ||
    (192 ≤ c && c ≤ 255 && c ≠ 215 && c ≠ 247)

/-- Deterministic stand-in for `datetime.now().timestamp()` truncated to an
integer, used only inside the fallback source name. -/
def tsNat (t : PyDateTime) : Nat :=
  ((((t.year - 1970) * 372 + t.month * 31 + t.day) * 24 + t.hour) * 60 +
      t.minute) * 60 + t.second

/-- `generate_source_name`: short DOS-like name that avoids the lower-cased
existing keys. -/
def generate_source_name (display_name : PyStr) (existing_lower : List PyStr)
    (now : PyDateTime) : Except PyErr PyStr :=
  let name := pathName display_name
  let stem0 := (pyUpper (pathStem name)).filter isAlnumCp
  let stem := (if stem0.isEmpty then str2cp "PYFILE" else stem0).take 6
  let ext0 := (pyUpper ((pathSuffix name).filter (fun c => c ≠ 46))).filter isAlnumCp
  let ext := if (ext0.take 3).isEmpty then str2cp "BIN" else ext0.take 3
  match (List.range 999).findSome? (fun i =>
      let candidate := stem ++ [126] ++ natStr (i + 1) ++ [46] ++ ext
      if existing_lower.contains (pyLower candidate) then none else some candidate) with
  | some c => .ok c
  | none =>
    let fallback := str2cp "PY" ++ natStr (tsNat now) ++ str2cp ".DAT"
    if existing_lower.contains (pyLower fallback) then
      .error (.runtimeError (str2cp "Unable to generate unique Source name"))
    else .ok fallback

/-- Modelled from the spec: the sanitized upload filename (werkzeug's
`secure_filename`), ASCII fragment — alphanumerics, dots, dashes and
underscores are kept; spaces become underscores. -/
def secureFilename (s : PyStr) : PyStr :=
  (s.map (fun c => if c = 32 then 95 else c)).filter
    (fun c => (isAlnumCp c && c < 128) || c == 46 || c == 45 || c == 95)

/-- `CabEditor.add_file`: validates the payload and display name, inserts the
new entry, then appends the manifest mapping — raising after the archive
insert when the manifest has no insertion point. -/
def CabEditor.add_file (ed : CabEditor) (uploadFilename : PyStr)
    (payload : List Nat) (display_name directory : PyStr) (now : PyDateTime) :
    OpOut :=
  match requireArchive ed, ed.archive with
  | some e, _ => { err := some e, state := ed }
  | none, none => { err := some (.runtimeError (str2cp "No CAB loaded")), state := ed }
  | none, some a =>
    if payload.isEmpty then
      { err := some (.valueError (str2cp "Uploaded file is empty")), state := ed }
    else
      let filename := secureFilename uploadFilename
      let final_name := if display_name.isEmpty then filename else pyStrip display_name
      if final_name.isEmpty then
        { err := some (.valueError (str2cp "Display name is required")), state := ed }
      else
        match generate_source_name final_name (a.keys.map pyLower) now with
        | .error e => { err := some e, state := ed }
        | .ok source_name =>
          let ed2 := { ed with archive := some (a.setItem source_name (mkCabFile payload now)) }
          match ed.xml_root with
          | none => { err := none, state := rebuildIndex ed2 }
          | some root =>
            match appendMapping root directory final_name source_name with
            | none =>
              { err := some (.valueError
                  (str2cp "Could not determine insertion directory in _setup.xml")),
                state := ed2 }
            | some root2 =>
              let ed3 := { ed2 with
                xml_root := some (update_numfiles_root root2 ed2.records.length) }
              { err := none, state := rebuildIndex (syncSetupXml ed3 now) }

/-- Modelled from the spec: `CabArchive.save(compress, sort)`, the external
archive library's writer — the spec specifies the save codec as the section
4.2 CAB writer; it receives no layout template (the editor captures none). -/
def archiveSave (defl : List Nat → List Nat) (setEnum : List PyStr → List PyStr)
    (a : CabArchive) (compress sort : Bool) : Except PyStr (List Nat) :=
  build_ce_cab_bytes defl setEnum a compress none sort

/-- Outcome of `build_cab_bytes`: error, post state and produced bytes. -/
structure BuildOut where
  err : Option PyErr
  state : CabEditor
  out : Option (List Nat)

/-- `CabEditor.build_cab_bytes`: resync the XML payload when a manifest
exists, then delegate to the archive's save codec with `sort=True`. -/
def CabEditor.build_cab_bytes (defl : List Nat → List Nat)
    (setEnum : List PyStr → List PyStr) (ed : CabEditor) (compress : Bool)
    (now : PyDateTime) : BuildOut :=
  match requireArchive ed with
  | some e => { err := some e, state := ed, out := none }
  | none =>
    let ed2 := if ed.xml_root.isSome then syncSetupXml ed now else ed
    match ed2.archive with
    | none =>
      { err := some (.runtimeError (str2cp "No CAB loaded")), state := ed2, out := none }
    | some a =>
      match archiveSave defl setEnum a compress true with
      | .ok bs => { err := none, state := ed2, out := some bs }
      | .error m => { err := some (.valueError m), state := ed2, out := none }

/-- The `loaded_name` computation at the top of `CabEditor.load`:
`Path((display_name or path.stem).strip()).stem or "cabinetforge_output"`. -/
def loadedNameOf (path : PyStr) (display_name : Option PyStr) : PyStr :=
  let base := match display_name with
    | some d => if d.isEmpty then pathStem path else d
    | none => pathStem path
  let st := pathStem (pyStrip base)
  if st.isEmpty then str2cp "cabinetforge_output" else st

/-- `CabEditor.load`, with the outcomes of the external byte parse
(`CabArchive(path.read_bytes())`) and of `_load_setup_xml` supplied as
explicit inputs: `path` and `loaded_name` are assigned before the parse, so
a parse failure leaves them already changed. -/
def CabEditor.load (ed : CabEditor) (path : PyStr) (display_name : Option PyStr)
    (parsed : Option CabArchive) (xmlParsed : Option (XmlElem × PyStr))
    (sig : List (PyStr × PyStr)) : OpOut :=
  let ed1 := { ed with path := some path,
                       loaded_name := loadedNameOf path display_name }
  match parsed with
  | none => { err := some (.valueError (str2cp "CAB parser rejected file")), state := ed1 }
  | some a =>
    let ed2 := { ed1 with archive := some a }
    let ed3 :=
      match (if a.mem (str2cp "_setup.xml") then xmlParsed else none) with
      | some re => { ed2 with xml_root := some re.1, setup_encoding := re.2 }
      | none => { ed2 with xml_root := none, setup_encoding := str2cp "utf-8" }
    { err := none, state := { rebuildIndex ed3 with signature_before := sig } }

/-! Concrete instances used by counterexamples, code-bug evaluations and
witnesses. -/

/-- A load-time stamp shared by the example archives. -/
def exT0 : PyDateTime := ⟨2025, 6, 1, 10, 0, 0⟩

/-- A mutation stamp. -/
def exTA : PyDateTime := ⟨2026, 1, 1, 12, 0, 0⟩

/-- Two seconds later: a distinct DOS time (seconds are halved). -/
def exTB : PyDateTime := ⟨2026, 1, 1, 12, 0, 2⟩

/-- One second after `exTA`: a distinct wall-clock time whose DOS date and
time encodings coincide with those of `exTA` (2-second DOS granularity). -/
def exTC : PyDateTime := ⟨2026, 1, 1, 12, 0, 1⟩

/-- An example archive entry. -/
def exEntry (nm : String) (b : List Nat) : PyStr × CabFile :=
  (str2cp nm, { buf := b, mtime := some exT0, attrEnc := 32, fname32 := none })

/-- The `\Windows` install directory of the example manifest, holding file
mappings for APP.EXE and LIB.DLL. -/
def exDirNode : XmlElem :=
  xmlNode (str2cp "characteristic")
    [(str2cp "type", str2cp "\\Windows"), (str2cp "translation", str2cp "install")]
    [xmlNode (str2cp "characteristic") [(str2cp "type", str2cp "App")]
      [xmlNode (str2cp "characteristic") [(str2cp "type", str2cp "Extract")]
        [xmlNode (str2cp "parm")
          [(str2cp "name", str2cp "Source"), (str2cp "value", str2cp "APP.EXE")] []]],
     xmlNode (str2cp "characteristic") [(str2cp "type", str2cp "Lib")]
      [xmlNode (str2cp "characteristic") [(str2cp "type", str2cp "Extract")]
        [xmlNode (str2cp "parm")
          [(str2cp "name", str2cp "Source"), (str2cp "value", str2cp "LIB.DLL")] []]]]

/-- The Install section with NumFiles=2. -/
def exInstallNode : XmlElem :=
  xmlNode (str2cp "characteristic") [(str2cp "type", str2cp "Install")]
    [xmlNode (str2cp "parm")
      [(str2cp "name", str2cp "NumFiles"), (str2cp "value", str2cp "2")] []]

/-- The example manifest root. -/
def exRoot : XmlElem :=
  xmlNode (str2cp "wap-provisioningdoc") []
    [xmlNode (str2cp "characteristic") [(str2cp "type", str2cp "FileOperation")] [exDirNode],
     exInstallNode]

/-- A loaded editor whose archive holds an entry (EXTRA.BIN) that the
manifest does not map. -/
def edC1 : CabEditor :=
  rebuildIndex
    { path := none, loaded_name := str2cp "a",
      archive := some { entries := [exEntry "_setup.xml" [60], exEntry "APP.EXE" [1, 2],
        exEntry "LIB.DLL" [3], exEntry "EXTRA.BIN" [7]] },
      xml_root := some exRoot, setup_encoding := str2cp "utf-8",
      records := [], directories := [], signature_before := [] }

/-- A loaded editor whose manifest lacks a FileOperation element. -/
def edC1b : CabEditor :=
  rebuildIndex
    { path := none, loaded_name := str2cp "a",
      archive := some { entries := [exEntry "_setup.xml" [60], exEntry "APP.EXE" [1, 2]] },
      xml_root := some (xmlNode (str2cp "wap-provisioningdoc") [] [exInstallNode]),
      setup_encoding := str2cp "utf-8",
      records := [], directories := [], signature_before := [] }

/-- The archive of the two-record manifest example. -/
def exArchC2 : CabArchive :=
  { entries := [exEntry "_setup.xml" [60], exEntry "APP.EXE" [1, 2],
    exEntry "LIB.DLL" [3]] }

/-- A loaded editor with a two-record manifest (NumFiles=2). -/
def edC2 : CabEditor :=
  rebuildIndex
    { path := some (str2cp "/tmp/a.cab"), loaded_name := str2cp "a",
      archive := some exArchC2,
      xml_root := some exRoot, setup_encoding := str2cp "utf-8",
      records := [], directories := [], signature_before := [] }

/-- The archive of the no-manifest examples. -/
def exArchC6 : CabArchive := { entries := [exEntry "A.TXT" [1]] }

/-- A loaded editor with no manifest and one entry. -/
def edC6 : CabEditor :=
  rebuildIndex
    { path := none, loaded_name := str2cp "a",
      archive := some exArchC6,
      xml_root := none, setup_encoding := str2cp "utf-8",
      records := [], directories := [], signature_before := [] }

/-- The archive of the consecutive-build example. -/
def exArchC9 : CabArchive :=
  { entries := [exEntry "_setup.xml" [60], exEntry "A.TXT" [1]] }

/-- A loaded editor with a manifest, for the consecutive-build example. -/
def edC9 : CabEditor :=
  rebuildIndex
    { path := none, loaded_name := str2cp "a",
      archive := some exArchC9,
      xml_root := some exRoot, setup_encoding := str2cp "utf-8",
      records := [], directories := [], signature_before := [] }

/-- The folder build produced for the compressed single-file example. -/
def exFolderC8 : FolderBuild :=
  { folder_key := 0, names := [[65]], reserve := [170],
    blocks := [([67, 75, 122], 1)] }

/-- An editor in its pre-load state, with one archive already loaded. -/
def edC5 : CabEditor :=
  { path := none, loaded_name := str2cp "cabinetforge_output",
    archive := some { entries := [exEntry "A.TXT" [1]] },
    xml_root := none, setup_encoding := str2cp "utf-8",
    records := [], directories := [], signature_before := [] }

/-- A parseable CAB with two declared folders (reserves 0xAA and 0xBB), a
2-byte header reserve, set id 0x1234, and a single file "A" stored in folder
0; folder 1 holds no file. -/
def exBytesC4 : List Nat :=
  [77, 83, 67, 70] ++ [0, 0, 0, 0] ++ [87, 0, 0, 0] ++ [0, 0, 0, 0] ++
    [60, 0, 0, 0] ++ [0, 0, 0, 0] ++ [3, 1] ++ [2, 0] ++ [1, 0] ++ [4, 0] ++
    [52, 18] ++ [0, 0] ++
    [2, 0] ++ [1] ++ [0] ++ [222, 173] ++
    [78, 0, 0, 0] ++ [1, 0] ++ [0, 0] ++ [170] ++
    [87, 0, 0, 0] ++ [0, 0] ++ [0, 0] ++ [187] ++
    [1, 0, 0, 0] ++ [0, 0, 0, 0] ++ [0, 0] ++ [33, 80] ++ [0, 0] ++ [32, 0] ++
    [65, 0] ++
    [0, 0, 0, 0] ++ [1, 0] ++ [1, 0] ++ [122]

/-- The archive parsed from `exBytesC4`: one entry, key "A", payload `[122]`
(the single stored data byte). -/
def exArchiveC4 : CabArchive :=
  { entries := [([65], { buf := [122], mtime := none, attrEnc := 32, fname32 := none })] }

/-- The layout template `parse_cab_layout` extracts from `exBytesC4`. -/
def exTemplateC4 : CabLayoutTemplate :=
  { set_id := 4660, cb_cfheader := 2, cb_cffolder := 1, cb_cfdata := 0,
    header_reserve := [222, 173], folder_reserves := [[170], [187]],
    file_order := [[65]], file_folders := [([65], 0)] }

/-- The matching criterion of one parent candidate of the
`remove_xml_file_node` walk, as a direct scan: a characteristic element one
of whose characteristic children has a case-insensitively matching
Extract/Source value. -/
def parentHitB (src : PyStr) (p : XmlElem) : Bool :=
  p.tag == str2cp "characteristic" &&
    p.children.any (fun c => c.tag == str2cp "characteristic" &&
      (findExtractSource c).any
        (fun x => pyLower (x.attrGetD (str2cp "value")) == pyLower src))

/-- The observation of an entry that the save codec reads: payload bytes,
encoded date and time, attribute encoding, and on-wire filename. -/
def CabFile.obs (f : CabFile) : List Nat × Nat × Nat × Nat × Option PyStr :=
  (f.buf, f.dateEnc, f.timeEnc, f.attrEnc, f.fname32)

/-- The archive observation: per-entry observations in order, plus the
cabinet-set id. -/
def CabArchive.obs (a : CabArchive) :
    List (PyStr × (List Nat × Nat × Nat × Nat × Option PyStr)) × Nat :=
  (a.entries.map (fun e => (e.1, e.2.obs)), a.set_id)

/-! ## Theorems -/

set_option maxRecDepth 200000 in
/-- C1: the claim fails on the code.  `remove_file` deletes the archive entry
before the manifest check, and `add_file` inserts the archive entry before
resolving the insertion point; evaluated at these concrete failing inputs,
both operations report an error while the archive differs from its pre-call
value — a partial mutation is committed on failure. -/
theorem C1_partial_mutation_on_failure :
    ((CabEditor.remove_file edC1 (str2cp "EXTRA.BIN") exTA).err.isSome = true ∧
      (CabEditor.remove_file edC1 (str2cp "EXTRA.BIN") exTA).state.archive ≠ edC1.archive) ∧
    ((CabEditor.add_file edC1b (str2cp "new.txt") [9] (str2cp "New.txt") [] exTA).err.isSome = true ∧
      (CabEditor.add_file edC1b (str2cp "new.txt") [9] (str2cp "New.txt") [] exTA).state.archive ≠ edC1b.archive) := by
  decide

/-- C2: the claim fails on the code.  `_update_numfiles` runs before
`_rebuild_index`, so after removing one of the two mapped files the manifest
still carries NumFiles="2" while the rebuilt records index has one record. -/
theorem C2_numfiles_stale_after_remove :
    (CabEditor.remove_file edC2 (str2cp "APP.EXE") exTA).err = none ∧
    ((CabEditor.remove_file edC2 (str2cp "APP.EXE") exTA).state.xml_root.map numFilesValue) =
      some (some (str2cp "2")) ∧
    (CabEditor.remove_file edC2 (str2cp "APP.EXE") exTA).state.records.length = 1 := by
  decide

/-- C5 counterexample: a failing load does not clear `path` — it leaves the
attempted path assigned — and `loaded_name` does not keep its prior value. -/
theorem C5_counterexample :
    (CabEditor.load edC5 (str2cp "/tmp/up.cab") (some (str2cp "new.cab")) none none []).err.isSome = true ∧
    (CabEditor.load edC5 (str2cp "/tmp/up.cab") (some (str2cp "new.cab")) none none []).state.path =
      some (str2cp "/tmp/up.cab") ∧
    (CabEditor.load edC5 (str2cp "/tmp/up.cab") (some (str2cp "new.cab")) none none []).state.loaded_name ≠
      edC5.loaded_name := by
  decide

/-- C6 counterexample: with no manifest, removing a key that is not in the
archive still reports success (no error is raised), refuting "reports
success only if the key existed". -/
theorem C6_counterexample :
    (edC6.archive.map (fun a => a.mem (str2cp "B.TXT"))) = some false ∧
    (CabEditor.remove_file edC6 (str2cp "B.TXT") exTA).err = none := by
  decide

/-- C7: evaluation of `_order_names` at the failing input.  With sort=true
the remaining names are sorted ascending (first conjunct), but with
sort=false the code lists `set(archive.keys())` in set-iteration order: for
keys inserted as B.TXT, A.TXT and the admissible enumeration that reverses
them (string hashing is salted, so this order occurs), the output is not the
archive insertion order. -/
theorem C7_set_iteration_order :
    order_names id [str2cp "B.TXT", str2cp "A.TXT"] none true =
      [str2cp "A.TXT", str2cp "B.TXT"] ∧
    order_names List.reverse [str2cp "B.TXT", str2cp "A.TXT"] none false =
      [str2cp "A.TXT", str2cp "B.TXT"] ∧
    ([str2cp "B.TXT", str2cp "A.TXT"].reverse).Perm [str2cp "B.TXT", str2cp "A.TXT"] ∧
    [str2cp "A.TXT", str2cp "B.TXT"] ≠ [str2cp "B.TXT", str2cp "A.TXT"] := by
  decide

set_option maxRecDepth 200000 in
/-- C9 counterexample: two consecutive `build_cab_bytes(compress=false)`
calls with no intervening mutation, two seconds apart, give different bytes —
the resync stamps the `_setup.xml` entry with the current DOS time, which
lands in its CFFILE record. -/
theorem C9_counterexample :
    (CabEditor.build_cab_bytes id id edC9 false exTA).out ≠
      (CabEditor.build_cab_bytes id id
        (CabEditor.build_cab_bytes id id edC9 false exTA).state false exTB).out := by
  decide

/-- C4 counterexample: for the parseable CAB `exBytesC4` with template T
(folder reserves [[170],[187]]), rewriting the parsed archive with T and
re-parsing yields folder reserves [[170]] — the reserve of the declared but
empty folder 1 is dropped, so the per-folder reserves are not all
preserved.  Set id, reserve sizes, header reserve and file order survive. -/
theorem C4_counterexample :
    parse_cab_layout exBytesC4 = some exTemplateC4 ∧
    ((build_ce_cab_bytes id id exArchiveC4 false (some exTemplateC4) true).toOption.bind
        parse_cab_layout).map CabLayoutTemplate.folder_reserves = some [[170]] ∧
    ((build_ce_cab_bytes id id exArchiveC4 false (some exTemplateC4) true).toOption.bind
        parse_cab_layout).map CabLayoutTemplate.folder_reserves ≠
      some exTemplateC4.folder_reserves ∧
    ((build_ce_cab_bytes id id exArchiveC4 false (some exTemplateC4) true).toOption.bind
        parse_cab_layout).map CabLayoutTemplate.file_order =
      some exTemplateC4.file_order ∧
    ((build_ce_cab_bytes id id exArchiveC4 false (some exTemplateC4) true).toOption.bind
        parse_cab_layout).map CabLayoutTemplate.header_reserve =
      some exTemplateC4.header_reserve := by
  decide

/-- `_rebuild_index` recomputes only the derived views: the archive field is
untouched. -/
theorem rebuildIndex_archive (ed : CabEditor) : (rebuildIndex ed).archive = ed.archive := by
  rcases ed with ⟨p, ln, ar, xr, se, re, di, si⟩
  cases ar <;> cases xr <;> rfl

/-- `_rebuild_index` leaves the XML tree untouched. -/
theorem rebuildIndex_xml_root (ed : CabEditor) :
    (rebuildIndex ed).xml_root = ed.xml_root := by
  rcases ed with ⟨p, ln, ar, xr, se, re, di, si⟩
  cases ar <;> cases xr <;> rfl

/-- Replacing the binding of one key leaves lookups of other keys alone. -/
theorem find_map_replace_ne (l : List (PyStr × CabFile)) (k k2 : PyStr)
    (v : CabFile) (h : k2 ≠ k) :
    (l.map (fun e => if e.1 == k then (k, v) else e)).find? (fun e => e.1 == k2) =
      l.find? (fun e => e.1 == k2) := by
  induction l with
  | nil => rfl
  | cons e tl ih =>
    by_cases he : e.1 = k
    · have h1 : (e.1 == k) = true := by simp [he]
      have h2 : (e.1 == k2) = false := by simp [he]; exact fun hh => h hh.symm
      have h3 : (k == k2) = false := by simp; exact fun hh => h hh.symm
      simp only [List.map_cons, h1, if_pos rfl, if_true]
      rw [List.find?_cons_of_neg _ (by simp [h3]), List.find?_cons_of_neg _ (by simp [h2])]
      exact ih
    · have h1 : (e.1 == k) = false := by simp [he]
      simp only [List.map_cons, h1, if_neg, Bool.false_eq_true, not_false_eq_true, if_false]
      by_cases h2 : e.1 = k2
      · rw [List.find?_cons_of_pos _ (by simp [h2]), List.find?_cons_of_pos _ (by simp [h2])]
      · rw [List.find?_cons_of_neg _ (by simp [h2]), List.find?_cons_of_neg _ (by simp [h2])]
        exact ih

/-- `archive[k] = v` leaves every other key's entry unchanged. -/
theorem get_setItem_ne (a : CabArchive) (k k2 : PyStr) (v : CabFile) (h : k2 ≠ k) :
    (a.setItem k v).get k2 = a.get k2 := by
  unfold CabArchive.setItem CabArchive.get
  by_cases hm : a.mem k
  · simp only [hm, if_true, if_pos]
    rw [find_map_replace_ne _ _ _ _ h]
  · simp only [hm, if_neg, Bool.false_eq_true, not_false_eq_true, if_false]
    rw [List.find?_append]
    have h3 : (k == k2) = false := by simp; exact fun hh => h hh.symm
    have : List.find? (fun e => e.1 == k2) [(k, v)] = none := by
      simp [List.find?, h3]
    rw [this]
    cases a.entries.find? (fun e => e.1 == k2) <;> rfl

/-- C5 (amended): when the archive parse fails, every field other than `path`
and `loaded_name` keeps its prior value, `path` holds the attempted path (it
is not cleared), and `loaded_name` the freshly computed display stem. -/
theorem C5_load_failure_state (ed : CabEditor) (path : PyStr) (dn : Option PyStr)
    (xmlParsed : Option (XmlElem × PyStr)) (sig : List (PyStr × PyStr)) :
    (CabEditor.load ed path dn none xmlParsed sig).err.isSome = true ∧
    (CabEditor.load ed path dn none xmlParsed sig).state =
      { ed with path := some path, loaded_name := loadedNameOf path dn } :=
  ⟨rfl, rfl⟩

/-- C3: `build_cab_bytes` resyncs the manifest into the archive and then
delegates to the archive save codec with sort=true and no layout template —
the editor holds no captured template, and the in-repo CE writer is reached
only as the spec-modelled body of that save (`archiveSave` passes
`template := none`). -/
theorem C3_build_delegates_to_generic_save (defl : List Nat → List Nat)
    (setEnum : List PyStr → List PyStr) (ed : CabEditor) (a : CabArchive)
    (c : Bool) (now : PyDateTime) (root : XmlElem)
    (ha : ed.archive = some a) (hne : a.entries.isEmpty = false)
    (hx : ed.xml_root = some root) :
    (CabEditor.build_cab_bytes defl setEnum ed c now).out =
      (archiveSave defl setEnum
        (a.setItem (str2cp "_setup.xml") (mkCabFile (xmlToBytes root) now))
        c true).toOption ∧
    (CabEditor.build_cab_bytes defl setEnum ed c now).state = syncSetupXml ed now := by
  have hreq : requireArchive ed = none := by
    unfold requireArchive; rw [ha]; simp [hne]
  have hsync : syncSetupXml ed now =
      { ed with archive := some (a.setItem (str2cp "_setup.xml")
                  (mkCabFile (xmlToBytes root) now)) } := by
    unfold syncSetupXml; rw [ha, hx]; simp [hne]
  unfold CabEditor.build_cab_bytes
  rw [hreq, hx]
  simp only [Option.isSome_some, if_true]
  rw [hsync]
  dsimp only
  cases hs : archiveSave defl setEnum
      (a.setItem (str2cp "_setup.xml") (mkCabFile (xmlToBytes root) now)) c true with
  | ok bs => exact ⟨rfl, rfl⟩
  | error m => exact ⟨rfl, rfl⟩

/-- Witness for C3 at the loaded example editor. -/
theorem C3_build_delegates_to_generic_save_witness :
    edC9.archive = some exArchC9 ∧ exArchC9.entries.isEmpty = false ∧
    edC9.xml_root = some exRoot ∧
    ((CabEditor.build_cab_bytes id id edC9 false exTA).out =
      (archiveSave id id
        (exArchC9.setItem (str2cp "_setup.xml") (mkCabFile (xmlToBytes exRoot) exTA))
        false true).toOption ∧
     (CabEditor.build_cab_bytes id id edC9 false exTA).state = syncSetupXml edC9 exTA) :=
  ⟨by decide, by decide, by decide,
    C3_build_delegates_to_generic_save id id edC9 exArchC9 false exTA exRoot
      (by decide) (by decide) (by decide)⟩

/-- C10: a successful `update_file` replaces only the named entry (with the
new payload and timestamp), leaves every other archive entry unchanged, does
not touch the XML tree or its NumFiles value, and does not resynchronize the
`_setup.xml` entry's payload. -/
theorem C10_update_file_frame (ed : CabEditor) (a : CabArchive) (src : PyStr)
    (payload : List Nat) (now : PyDateTime) (ha : ed.archive = some a)
    (hne : a.entries.isEmpty = false) (hmem : a.mem src = true)
    (hp : payload.isEmpty = false) :
    (CabEditor.update_file ed src payload now).err = none ∧
    (CabEditor.update_file ed src payload now).state.archive =
      some (a.setItem src (mkCabFile payload now)) ∧
    (∀ k2, k2 ≠ src → (a.setItem src (mkCabFile payload now)).get k2 = a.get k2) ∧
    (CabEditor.update_file ed src payload now).state.xml_root = ed.xml_root ∧
    ((CabEditor.update_file ed src payload now).state.xml_root.map numFilesValue) =
      (ed.xml_root.map numFilesValue) ∧
    (src ≠ str2cp "_setup.xml" →
      (a.setItem src (mkCabFile payload now)).get (str2cp "_setup.xml") =
        a.get (str2cp "_setup.xml")) := by
  have hreq : requireArchive ed = none := by
    unfold requireArchive; rw [ha]; simp [hne]
  have hval : CabEditor.update_file ed src payload now =
      { err := none, state := rebuildIndex
          { ed with archive := some (a.setItem src (mkCabFile payload now)) } } := by
    unfold CabEditor.update_file
    rw [hreq, ha]
    simp [hmem, hp]
  rw [hval]
  refine ⟨rfl, ?_, ?_, ?_, ?_, ?_⟩
  · rw [rebuildIndex_archive]
  · intro k2 hk; exact get_setItem_ne a src k2 _ hk
  · rw [rebuildIndex_xml_root]
  · rw [rebuildIndex_xml_root]
  · intro hsrc; exact get_setItem_ne a src _ _ (fun hh => hsrc hh.symm)

/-- Witness for C10 on the one-entry example editor. -/
theorem C10_update_file_frame_witness :
    edC6.archive = some exArchC6 ∧ exArchC6.mem (str2cp "A.TXT") = true ∧
    ((CabEditor.update_file edC6 (str2cp "A.TXT") [9] exTA).err = none ∧
     (CabEditor.update_file edC6 (str2cp "A.TXT") [9] exTA).state.archive =
       some (exArchC6.setItem (str2cp "A.TXT") (mkCabFile [9] exTA)) ∧
     (∀ k2, k2 ≠ str2cp "A.TXT" →
       (exArchC6.setItem (str2cp "A.TXT") (mkCabFile [9] exTA)).get k2 =
         exArchC6.get k2) ∧
     (CabEditor.update_file edC6 (str2cp "A.TXT") [9] exTA).state.xml_root =
       edC6.xml_root ∧
     ((CabEditor.update_file edC6 (str2cp "A.TXT") [9] exTA).state.xml_root.map
       numFilesValue) = (edC6.xml_root.map numFilesValue) ∧
     (str2cp "A.TXT" ≠ str2cp "_setup.xml" →
       (exArchC6.setItem (str2cp "A.TXT") (mkCabFile [9] exTA)).get
           (str2cp "_setup.xml") = exArchC6.get (str2cp "_setup.xml"))) :=
  ⟨by decide, by decide,
    C10_update_file_frame edC6 exArchC6 (str2cp "A.TXT") [9] exTA
      (by decide) (by decide) (by decide) (by decide)⟩

/-- Any fuel at least the list length gives the canonical chunking. -/
theorem chunkifyGo_eq_chunkify (sz : Nat) :
    ∀ (f : Nat) (l : List α), l.length ≤ f → chunkifyGo sz f l = chunkify sz l := by
  intro f
  induction f using Nat.strong_induction_on with
  | _ f ih =>
    intro l hl
    cases l with
    | nil => cases f <;> rfl
    | cons a rest =>
      cases f with
      | zero => simp at hl
      | succ g =>
        have hr : rest.length ≤ g := by simpa using hl
        have hd : ((a :: rest).drop (sz + 1)).length ≤ g := by
          simp only [List.length_drop, List.length_cons]; omega
        have hd2 : ((a :: rest).drop (sz + 1)).length ≤ rest.length := by
          simp only [List.length_drop, List.length_cons]; omega
        calc chunkifyGo sz (g + 1) (a :: rest)
            = (a :: rest).take (sz + 1) ::
                chunkifyGo sz g ((a :: rest).drop (sz + 1)) := rfl
          _ = (a :: rest).take (sz + 1) ::
                chunkify sz ((a :: rest).drop (sz + 1)) := by
              rw [ih g (Nat.lt_succ_self g) _ hd]
          _ = (a :: rest).take (sz + 1) ::
                chunkifyGo sz rest.length ((a :: rest).drop (sz + 1)) := by
              rw [ih rest.length (Nat.lt_succ_of_le hr) _ hd2]
          _ = chunkify sz (a :: rest) := rfl

/-- One unfolding of `chunkify` on a nonempty list. -/
theorem chunkify_cons (sz : Nat) (a : α) (rest : List α) :
    chunkify sz (a :: rest) =
      (a :: rest).take (sz + 1) :: chunkify sz ((a :: rest).drop (sz + 1)) := by
  have hd2 : ((a :: rest).drop (sz + 1)).length ≤ rest.length := by
    simp only [List.length_drop, List.length_cons]; omega
  calc chunkify sz (a :: rest)
      = (a :: rest).take (sz + 1) ::
          chunkifyGo sz rest.length ((a :: rest).drop (sz + 1)) := rfl
    _ = _ := by rw [chunkifyGo_eq_chunkify sz rest.length _ hd2]

/-- The chunks concatenate back to the input. -/
theorem chunkify_flatten (sz : Nat) (l : List α) : (chunkify sz l).flatten = l := by
  generalize hn : l.length = n
  induction n using Nat.strong_induction_on generalizing l with
  | _ n ih =>
    cases l with
    | nil => rfl
    | cons a rest =>
      rw [chunkify_cons]
      have hd : ((a :: rest).drop (sz + 1)).length < n := by
        subst hn; simp only [List.length_drop, List.length_cons]; omega
      rw [List.flatten_cons, ih _ hd _ rfl, List.take_append_drop]

/-- Every chunk holds at most `sz + 1` elements. -/
theorem chunkify_chunk_le (sz : Nat) (l : List α) :
    ∀ c ∈ chunkify sz l, c.length ≤ sz + 1 := by
  generalize hn : l.length = n
  induction n using Nat.strong_induction_on generalizing l with
  | _ n ih =>
    cases l with
    | nil => intro c hc; cases hc
    | cons a rest =>
      rw [chunkify_cons]
      intro c hc
      rcases List.mem_cons.mp hc with h | h
      · subst h; simp [List.length_take]
      · have hd : ((a :: rest).drop (sz + 1)).length < n := by
          subst hn; simp only [List.length_drop, List.length_cons]; omega
        exact ih _ hd _ rfl c h

/-- C8: with compress=true, every folder build carries at least one data
block, and the blocks are exactly the `C K`-framed deflate streams of the
at-most-32768-byte chunks of the folder's concatenated payload (an all-empty
payload still yields one empty chunk). -/
theorem C8_compressed_blocks (defl : List Nat → List Nat) (archive : CabArchive)
    (ordered : List PyStr) (t : CabLayoutTemplate) (f : FolderBuild)
    (hf : f ∈ build_folders defl archive ordered t true) :
    f.blocks ≠ [] ∧
    ∃ chunks : List (List Nat), chunks ≠ [] ∧
      chunks.flatten = (f.names.map (fun n => (archive.getF n).buf)).flatten ∧
      (∀ c ∈ chunks, c.length ≤ 32768) ∧
      f.blocks = chunks.map (fun c => (67 :: 75 :: defl c, c.length)) := by
  unfold build_folders at hf
  obtain ⟨kv, hkv, heq⟩ := List.mem_map.mp hf
  subst heq
  dsimp only
  set raw := (kv.2.map (fun n => (archive.getF n).buf)).flatten with hraw
  by_cases hemp : (chunkify 0x7FFF raw).isEmpty
  · have hnil : chunkify 0x7FFF raw = [] := by
      cases hc : chunkify 0x7FFF raw
      · rfl
      · rw [hc] at hemp; cases hemp
    have hrawnil : raw = [] := by
      have := chunkify_flatten 0x7FFF raw
      rw [hnil] at this
      exact this.symm
    refine ⟨by simp [hemp], [[]], by simp, ?_, ?_, by simp [hemp]⟩
    · simp [hrawnil]
    · intro c hc; rcases List.mem_singleton.mp hc with rfl; simp
  · have hne : chunkify 0x7FFF raw ≠ [] := by
      intro hc; rw [hc] at hemp; exact hemp rfl
    refine ⟨?_, chunkify 0x7FFF raw, hne, chunkify_flatten 0x7FFF raw, ?_, by simp [hemp]⟩
    · simp only [hemp, Bool.false_eq_true, if_false]
      intro hmap
      exact hne (List.map_eq_nil_iff.mp hmap)
    · intro c hc
      exact chunkify_chunk_le 0x7FFF raw c hc

/-- Witness for C8 at the concrete single-file archive. -/
theorem C8_compressed_blocks_witness :
    exFolderC8 ∈ build_folders id exArchiveC4 [[65]] exTemplateC4 true ∧
    (exFolderC8.blocks ≠ [] ∧
     ∃ chunks : List (List Nat), chunks ≠ [] ∧
       chunks.flatten =
         (exFolderC8.names.map (fun n => (exArchiveC4.getF n).buf)).flatten ∧
       (∀ c ∈ chunks, c.length ≤ 32768) ∧
       exFolderC8.blocks = chunks.map (fun c => (67 :: 75 :: id c, c.length))) :=
  ⟨by decide,
    C8_compressed_blocks id exArchiveC4 [[65]] exTemplateC4 exFolderC8 (by decide)⟩

/-- The per-parent child scan of `remove_xml_file_node` succeeds exactly when
some characteristic child's Extract/Source value matches. -/
theorem removeMatchingIn_isSome (src : PyStr) (l : List XmlElem) :
    (removeMatchingIn src l).isSome =
      l.any (fun c => c.tag == str2cp "characteristic" &&
        (findExtractSource c).any
          (fun x => pyLower (x.attrGetD (str2cp "value")) == pyLower src)) := by
  induction l with
  | nil => rfl
  | cons c cs ih =>
    unfold removeMatchingIn
    by_cases ht : (c.tag == str2cp "characteristic") = true
    · rw [if_pos ht]
      cases hx : findExtractSource c with
      | some x =>
        by_cases hv : (pyLower (x.attrGetD (str2cp "value")) == pyLower src) = true
        · simp [hv, ht, hx]
        · simp only [Bool.not_eq_true] at hv
          simp [hv, ht, hx, ih]
      | none => simp [hx, ht, ih, Option.any]
    · rw [if_neg ht]
      simp only [Bool.not_eq_true] at ht
      simp [ht, ih]

/-- `parentHitB` computed on a destructured node. -/
theorem parentHitB_eq (src t : PyStr) (a : List (PyStr × PyStr)) (cs : XmlForest) :
    parentHitB src (.node t a cs) =
      ((t == str2cp "characteristic") && (removeMatchingIn src cs.toList).isSome) := by
  unfold parentHitB
  rw [removeMatchingIn_isSome]
  rfl

mutual

/-- The subtree walk of `remove_xml_file_node` succeeds exactly when some
parent candidate in the subtree (the root element first, then its
descendants in document order) matches. -/
theorem tryRemoveSubtree_isSome (src : PyStr) :
    ∀ (e : XmlElem), (tryRemoveSubtree src e).isSome =
      (e :: e.descendants).any (parentHitB src)
  | .node t a cs => by
    have hf := tryRemoveForest_isSome src cs
    unfold tryRemoveSubtree
    rw [List.any_cons]
    have hdesc : (XmlElem.node t a cs).descendants = cs.descList := rfl
    rw [hdesc, ← hf, parentHitB_eq]
    by_cases ht : (t == str2cp "characteristic") = true
    · rw [if_pos ht]
      cases hrm : removeMatchingIn src cs.toList with
      | some cs2 => simp [ht]
      | none => cases hfr : tryRemoveForest src cs <;> simp [ht]
    · rw [if_neg ht]
      simp only [Bool.not_eq_true] at ht
      cases hfr : tryRemoveForest src cs <;> simp [ht]

/-- The forest walk succeeds exactly when some parent candidate among the
forest's elements and their descendants matches. -/
theorem tryRemoveForest_isSome (src : PyStr) :
    ∀ (fr : XmlForest), (tryRemoveForest src fr).isSome =
      fr.descList.any (parentHitB src)
  | .nil => rfl
  | .cons c csf => by
    have hs := tryRemoveSubtree_isSome src c
    have hf := tryRemoveForest_isSome src csf
    unfold tryRemoveForest
    have hd : (XmlForest.cons c csf).descList =
        c :: (c.descendants ++ csf.descList) := rfl
    rw [hd, List.any_cons, List.any_append]
    cases hc : tryRemoveSubtree src c with
    | some c2 =>
      rw [hc] at hs
      simp only [Option.isSome_some, List.any_cons] at hs
      have hs2 := hs.symm
      simp only [Bool.or_eq_true] at hs2
      rcases hs2 with h | h <;> simp [h]
    | none =>
      rw [hc] at hs
      simp only [Option.isSome_none, List.any_cons] at hs
      have h1 : parentHitB src c = false := by
        cases hp : parentHitB src c
        · rfl
        · rw [hp] at hs; simp at hs
      have h2 : c.descendants.any (parentHitB src) = false := by
        cases hp : c.descendants.any (parentHitB src)
        · rfl
        · rw [hp] at hs; simp at hs
      cases hfr : tryRemoveForest src csf <;> simp [h1, h2, ← hf, hfr]

end

/-- `descendants` through the children forest. -/
theorem descendants_eq (e : XmlElem) : e.descendants = e.childrenF.descList := by
  cases e; rfl

/-- Success of `remove_xml_file_node` in terms of the parent-candidate scan
over the FileOperation element's descendants. -/
theorem remove_xml_file_node_snd (root : XmlElem) (src : PyStr)
    (fileop : XmlElem)
    (hfo : findChildCharType root (str2cp "FileOperation") = some fileop) :
    (remove_xml_file_node root src).2 =
      fileop.descendants.any (parentHitB src) := by
  unfold remove_xml_file_node
  rw [hfo]
  dsimp only
  rw [descendants_eq, ← tryRemoveForest_isSome]
  cases tryRemoveForest src fileop.childrenF <;> rfl

/-- `any` through `filterMap`. -/
theorem any_filterMap (l : List α) (f : α → Option β) (p : β → Bool) :
    (l.filterMap f).any p = l.any (fun x => (f x).any p) := by
  induction l with
  | nil => rfl
  | cons x tl ih =>
    cases hf : f x <;> simp [List.filterMap_cons, hf, ih, Option.any]

/-- Pointwise-equal predicates give equal `any`. -/
theorem any_congr_mem (l : List α) (p q : α → Bool) (h : ∀ x ∈ l, p x = q x) :
    l.any p = l.any q := by
  induction l with
  | nil => rfl
  | cons x tl ih =>
    simp only [List.any_cons, h x (List.mem_cons_self x tl)]
    rw [ih (fun y hy => h y (List.mem_cons_of_mem x hy))]

/-- `any` through an Option map. -/
theorem option_any_map (o : Option α) (g : α → β) (p : β → Bool) :
    (o.map g).any p = o.any (fun x => p (g x)) := by
  cases o <;> rfl

/-- `any` through a (type-changing) map. -/
theorem any_map_g (l : List α) (f : α → β) (p : β → Bool) :
    (l.map f).any p = l.any (fun a => p (f a)) := by
  induction l with
  | nil => rfl
  | cons x tl ih => simp [List.any_cons, ih]

/-- The case-insensitive source match over `iter_file_nodes` equals the
parent-candidate scan that drives removal. -/
theorem iter_file_nodes_any (root : XmlElem) (src : PyStr) (fileop : XmlElem)
    (hfo : findChildCharType root (str2cp "FileOperation") = some fileop) :
    (iter_file_nodes root).any (fun tr =>
        pyLower (tr.2.2.attrGetD (str2cp "value")) == pyLower src) =
      fileop.descendants.any (parentHitB src) := by
  unfold iter_file_nodes
  rw [hfo, List.any_flatten, any_map_g, List.any_filter]
  apply any_congr_mem
  intro p hp
  dsimp only [Function.comp]
  rw [any_filterMap]
  unfold parentHitB
  congr 1
  rw [List.any_filter]
  apply any_congr_mem
  intro fn hfn
  congr 1
  rw [option_any_map]

/-- C6 (amended): with a manifest present, `remove_file` raises the
manifest-mismatch KeyError exactly when no file node's Extract/Source value
matches the source name case-insensitively; with no manifest the operation
always reports success, and a missing key leaves the archive untouched. -/
theorem C6_remove_file_error_semantics (ed : CabEditor) (a : CabArchive)
    (src : PyStr) (now : PyDateTime) (ha : ed.archive = some a)
    (hne : a.entries.isEmpty = false) :
    (∀ root, ed.xml_root = some root →
      ((CabEditor.remove_file ed src now).err =
          some (.keyError (str2cp "No matching _setup.xml entry")) ↔
        ¬ ((iter_file_nodes root).any (fun tr =>
            pyLower (tr.2.2.attrGetD (str2cp "value")) == pyLower src) = true))) ∧
    (ed.xml_root = none →
      (CabEditor.remove_file ed src now).err = none ∧
      (a.mem src = false →
        (CabEditor.remove_file ed src now).state.archive = some a)) := by
  have hreq : requireArchive ed = none := by
    unfold requireArchive; rw [ha]; simp [hne]
  constructor
  · intro root hroot
    have hrb : (remove_xml_file_node root src).2 =
        (iter_file_nodes root).any (fun tr =>
          pyLower (tr.2.2.attrGetD (str2cp "value")) == pyLower src) := by
      cases hfo : findChildCharType root (str2cp "FileOperation") with
      | none =>
        unfold remove_xml_file_node iter_file_nodes
        rw [hfo]
        rfl
      | some fileop =>
        rw [remove_xml_file_node_snd root src fileop hfo,
          iter_file_nodes_any root src fileop hfo]
    unfold CabEditor.remove_file
    rw [hreq, ha, hroot]
    dsimp only
    rw [hrb]
    cases hany : (iter_file_nodes root).any (fun tr =>
        pyLower (tr.2.2.attrGetD (str2cp "value")) == pyLower src) with
    | false => simp
    | true => simp
  · intro hroot
    unfold CabEditor.remove_file
    rw [hreq, ha, hroot]
    dsimp only
    refine ⟨rfl, ?_⟩
    intro hmem
    rw [rebuildIndex_archive]
    simp [hmem]

/-- Witness for C6 at the loaded two-record example editor. -/
theorem C6_remove_file_error_semantics_witness :
    edC2.archive = some exArchC2 ∧ exArchC2.entries.isEmpty = false ∧
    ((∀ root, edC2.xml_root = some root →
      ((CabEditor.remove_file edC2 (str2cp "APP.EXE") exTA).err =
          some (.keyError (str2cp "No matching _setup.xml entry")) ↔
        ¬ ((iter_file_nodes root).any (fun tr =>
            pyLower (tr.2.2.attrGetD (str2cp "value")) ==
              pyLower (str2cp "APP.EXE")) = true))) ∧
     (edC2.xml_root = none →
      (CabEditor.remove_file edC2 (str2cp "APP.EXE") exTA).err = none ∧
      (exArchC2.mem (str2cp "APP.EXE") = false →
        (CabEditor.remove_file edC2 (str2cp "APP.EXE") exTA).state.archive =
          some exArchC2))) :=
  ⟨by decide, by decide,
    C6_remove_file_error_semantics edC2 exArchC2 (str2cp "APP.EXE") exTA
      (by decide) (by decide)⟩

/-- Replacing one key's binding keeps the key list. -/
theorem map_fst_replace (l : List (PyStr × CabFile)) (k : PyStr) (v : CabFile) :
    (l.map (fun e => if e.1 == k then (k, v) else e)).map Prod.fst =
      l.map Prod.fst := by
  induction l with
  | nil => rfl
  | cons e tl ih =>
    rw [List.map_cons, List.map_cons, List.map_cons]
    by_cases he : (e.1 == k) = true
    · have hk : e.1 = k := by simpa using he
      rw [if_pos he, ih, hk]
    · rw [if_neg he, ih]

/-- Replacing a binding twice keeps only the second replacement. -/
theorem replace_replace (l : List (PyStr × CabFile)) (k : PyStr) (v w : CabFile) :
    ((l.map (fun e => if e.1 == k then (k, v) else e)).map
        (fun e => if e.1 == k then (k, w) else e)) =
      l.map (fun e => if e.1 == k then (k, w) else e) := by
  rw [List.map_map]
  apply List.map_congr_left
  intro e _
  by_cases hk : (e.1 == k) = true <;> simp [Function.comp, hk]

/-- Replacement is the identity when the key is absent. -/
theorem replace_of_not_mem (l : List (PyStr × CabFile)) (k : PyStr) (w : CabFile)
    (h : (l.map Prod.fst).contains k = false) :
    l.map (fun e => if e.1 == k then (k, w) else e) = l := by
  induction l with
  | nil => rfl
  | cons e tl ih =>
    simp only [List.map_cons, List.contains_cons, Bool.or_eq_false_iff] at h
    have he : ¬ (e.1 == k) = true := by
      intro hb
      have hk : e.1 = k := by simpa using hb
      rw [hk] at h
      simp at h
    rw [List.map_cons, if_neg he, ih h.2]

/-- Setting the same key twice keeps only the second value. -/
theorem setItem_setItem (a : CabArchive) (k : PyStr) (v w : CabFile) :
    (a.setItem k v).setItem k w = a.setItem k w := by
  unfold CabArchive.setItem CabArchive.mem CabArchive.keys
  by_cases hm : (a.entries.map Prod.fst).contains k = true
  · simp only [hm, if_true, map_fst_replace, replace_replace]
  · have hm2 : (a.entries.map Prod.fst).contains k = false := by
      cases hb : (a.entries.map Prod.fst).contains k
      · rfl
      · exact absurd hb hm
    simp only [hm2, Bool.false_eq_true, if_false]
    have hm3 : (((a.entries ++ [(k, v)]).map Prod.fst).contains k) = true := by
      simp
    simp only [hm3, if_true, List.map_append, replace_of_not_mem _ _ _ hm2]
    simp

/-- A `setItem` result is never empty. -/
theorem setItem_isEmpty (a : CabArchive) (k : PyStr) (v : CabFile) :
    (a.setItem k v).entries.isEmpty = false := by
  unfold CabArchive.setItem
  by_cases hm : a.mem k = true
  · simp only [hm, if_true]
    have : a.entries ≠ [] := by
      intro hnil
      unfold CabArchive.mem CabArchive.keys at hm
      rw [hnil] at hm
      simp at hm
    cases he : a.entries
    · exact absurd he this
    · simp
  · simp only [hm, if_neg, Bool.false_eq_true, not_false_eq_true, if_false]
    cases a.entries <;> simp

/-- Observation-equal values give observation-equal `setItem` results. -/
theorem setItem_obs_congr (a : CabArchive) (k : PyStr) (v w : CabFile)
    (hv : v.obs = w.obs) : (a.setItem k v).obs = (a.setItem k w).obs := by
  unfold CabArchive.setItem CabArchive.obs
  by_cases hm : a.mem k = true
  · simp only [hm, if_true]
    refine congrArg (fun l => (l, a.set_id)) ?_
    rw [List.map_map, List.map_map]
    apply List.map_congr_left
    intro e _
    by_cases hk : (e.1 == k) = true <;> simp [Function.comp, hk, hv]
  · simp only [hm, if_neg, Bool.false_eq_true, not_false_eq_true, if_false]
    simp [hv]

/-- `find?` by key commutes with the per-entry observation map. -/
theorem find_map_pairObs (l : List (PyStr × CabFile)) (k : PyStr) :
    ((l.map (fun e => (e.1, e.2.obs))).find? (fun e => e.1 == k)) =
      (l.find? (fun e => e.1 == k)).map (fun e => (e.1, e.2.obs)) := by
  induction l with
  | nil => rfl
  | cons e tl ih =>
    rw [List.map_cons]
    cases hk : (e.1 == k) with
    | true => simp only [List.find?_cons, hk]; rfl
    | false => simp only [List.find?_cons, hk]; exact ih

/-- Observation-equal archives have equal key lists. -/
theorem keys_eq_of_obs (a b : CabArchive) (h : a.obs = b.obs) : a.keys = b.keys := by
  have h1 : a.entries.map (fun e => (e.1, e.2.obs)) =
      b.entries.map (fun e => (e.1, e.2.obs)) := congrArg Prod.fst h
  have h2 := congrArg (List.map Prod.fst) h1
  rw [List.map_map, List.map_map] at h2
  exact h2

/-- Observation-equal archives look observation-equal at every key. -/
theorem getF_obs_eq (a b : CabArchive) (h : a.obs = b.obs) (k : PyStr) :
    (a.getF k).obs = (b.getF k).obs := by
  have h1 : a.entries.map (fun e => (e.1, e.2.obs)) =
      b.entries.map (fun e => (e.1, e.2.obs)) := congrArg Prod.fst h
  have h2 : ((a.entries.map (fun e => (e.1, e.2.obs))).find? (fun e => e.1 == k)) =
      ((b.entries.map (fun e => (e.1, e.2.obs))).find? (fun e => e.1 == k)) := by
    rw [h1]
  rw [find_map_pairObs, find_map_pairObs] at h2
  unfold CabArchive.getF CabArchive.get
  cases hga : a.entries.find? (fun e => e.1 == k) with
  | none =>
    cases hgb : b.entries.find? (fun e => e.1 == k) with
    | none => rfl
    | some eb => rw [hga, hgb] at h2; cases h2
  | some ea =>
    cases hgb : b.entries.find? (fun e => e.1 == k) with
    | none => rw [hga, hgb] at h2; cases h2
    | some eb =>
      rw [hga, hgb] at h2
      have h3 : ((ea.1, ea.2.obs) : PyStr × _) = (eb.1, eb.2.obs) :=
        Option.some.inj h2
      have := congrArg Prod.snd h3
      simpa using this

/-- The CE writer depends on the archive only through its observation: the
key list, each entry's payload, DOS stamps, attributes and win32 name, and
the set id. -/
theorem build_ce_cab_bytes_obs (defl : List Nat → List Nat)
    (setEnum : List PyStr → List PyStr) (a b : CabArchive) (c : Bool)
    (tmpl : Option CabLayoutTemplate) (sort : Bool) (h : a.obs = b.obs) :
    build_ce_cab_bytes defl setEnum a c tmpl sort =
      build_ce_cab_bytes defl setEnum b c tmpl sort := by
  have hk : a.keys = b.keys := keys_eq_of_obs a b h
  have hsid : a.set_id = b.set_id := congrArg Prod.snd h
  have hg : ∀ n, (a.getF n).obs = (b.getF n).obs := getF_obs_eq a b h
  have hbuf : ∀ n, (a.getF n).buf = (b.getF n).buf := fun n =>
    congrArg (fun o => o.1) (hg n)
  have hdate : ∀ n, (a.getF n).dateEnc = (b.getF n).dateEnc := fun n =>
    congrArg (fun o => o.2.1) (hg n)
  have htime : ∀ n, (a.getF n).timeEnc = (b.getF n).timeEnc := fun n =>
    congrArg (fun o => o.2.2.1) (hg n)
  have hattr : ∀ n, (a.getF n).attrEnc = (b.getF n).attrEnc := fun n =>
    congrArg (fun o => o.2.2.2.1) (hg n)
  have hfn : ∀ n, (a.getF n).fname32 = (b.getF n).fname32 := fun n =>
    congrArg (fun o => o.2.2.2.2) (hg n)
  unfold build_ce_cab_bytes build_folders build_uncompressed_offsets
    build_cffile_blob defaultTemplate
  simp only [hk, hsid, hbuf, hdate, htime, hattr, hfn]

/-- On an editor holding a nonempty archive and a manifest, `build_cab_bytes`
reduces to: resync the serialized tree into `_setup.xml` stamped `t`, then
save the resulting archive. -/
theorem build_cab_bytes_manifest_val (defl : List Nat → List Nat)
    (setEnum : List PyStr → List PyStr) (ed : CabEditor) (a : CabArchive)
    (root : XmlElem) (c : Bool) (t : PyDateTime)
    (ha : ed.archive = some a) (hne : a.entries.isEmpty = false)
    (hx : ed.xml_root = some root) :
    CabEditor.build_cab_bytes defl setEnum ed c t =
      match archiveSave defl setEnum
          (a.setItem (str2cp "_setup.xml") (mkCabFile (xmlToBytes root) t))
          c true with
      | .ok bs =>
        { err := none,
          state := { ed with archive := some (a.setItem (str2cp "_setup.xml")
                      (mkCabFile (xmlToBytes root) t)) },
          out := some bs }
      | .error m =>
        { err := some (.valueError m),
          state := { ed with archive := some (a.setItem (str2cp "_setup.xml")
                      (mkCabFile (xmlToBytes root) t)) },
          out := none } := by
  have hreq : requireArchive ed = none := by
    unfold requireArchive; rw [ha]; simp [hne]
  have hsync : syncSetupXml ed t =
      { ed with archive := some (a.setItem (str2cp "_setup.xml")
                  (mkCabFile (xmlToBytes root) t)) } := by
    unfold syncSetupXml; rw [ha, hx]; simp [hne]
  unfold CabEditor.build_cab_bytes
  rw [hreq, hx]
  simp only [Option.isSome_some, if_true]
  rw [hsync]
  dsimp only
  cases archiveSave defl setEnum
      (a.setItem (str2cp "_setup.xml") (mkCabFile (xmlToBytes root) t)) c true with
  | ok bs => rw [hx]
  | error m => rw [hx]

/-- A `requireArchive` success means a loaded, nonempty archive. -/
theorem requireArchive_none_inv (ed : CabEditor) (h : requireArchive ed = none) :
    ∃ a, ed.archive = some a ∧ a.entries.isEmpty = false := by
  unfold requireArchive at h
  cases hao : ed.archive with
  | none => rw [hao] at h; simp at h
  | some a =>
    rw [hao] at h
    dsimp only at h
    refine ⟨a, rfl, ?_⟩
    cases hb : a.entries.isEmpty with
    | false => rfl
    | true => rw [hb] at h; simp at h

/-- C9 (amended): two consecutive `build_cab_bytes` calls with no intervening
mutation — the second runs on the first's post state — return identical
outputs, provided the two resync stamps carry equal DOS date and DOS time
encodings (DOS time has 2-second granularity). -/
theorem C9_idempotent_resync (defl : List Nat → List Nat)
    (setEnum : List PyStr → List PyStr) (ed : CabEditor) (c : Bool)
    (t1 t2 : PyDateTime) (hd : dosDate t1 = dosDate t2)
    (ht : dosTime t1 = dosTime t2) :
    (CabEditor.build_cab_bytes defl setEnum
        (CabEditor.build_cab_bytes defl setEnum ed c t1).state c t2).out =
      (CabEditor.build_cab_bytes defl setEnum ed c t1).out := by
  cases hra : requireArchive ed with
  | some e =>
    have h1 : ∀ t, CabEditor.build_cab_bytes defl setEnum ed c t =
        { err := some e, state := ed, out := none } := by
      intro t
      unfold CabEditor.build_cab_bytes
      rw [hra]
    rw [h1 t1]
    dsimp only
    rw [h1 t2]
  | none =>
    obtain ⟨a, hao, hne⟩ := requireArchive_none_inv ed hra
    cases hx : ed.xml_root with
    | none =>
      have h1 : ∀ t, CabEditor.build_cab_bytes defl setEnum ed c t =
          match archiveSave defl setEnum a c true with
          | .ok bs => { err := none, state := ed, out := some bs }
          | .error m =>
            { err := some (.valueError m), state := ed, out := none } := by
        intro t
        unfold CabEditor.build_cab_bytes
        rw [hra, hx]
        simp only [Option.isSome_none, Bool.false_eq_true, if_false]
        rw [hao]
      rw [h1 t1]
      cases hs : archiveSave defl setEnum a c true with
      | ok bs =>
        dsimp only
        rw [h1 t2, hs]
      | error m =>
        dsimp only
        rw [h1 t2, hs]
    | some root =>
      have h1 := build_cab_bytes_manifest_val defl setEnum ed a root c t1 hao hne hx
      rw [h1]
      have hx2 : ({ ed with archive := some (a.setItem (str2cp "_setup.xml")
          (mkCabFile (xmlToBytes root) t1)) } : CabEditor).xml_root = some root := hx
      have hmk : (mkCabFile (xmlToBytes root) t2).obs =
          (mkCabFile (xmlToBytes root) t1).obs := by
        unfold CabFile.obs mkCabFile CabFile.dateEnc CabFile.timeEnc
        dsimp only
        rw [← hd, ← ht]
      have hobs : (a.setItem (str2cp "_setup.xml")
            (mkCabFile (xmlToBytes root) t2)).obs =
          (a.setItem (str2cp "_setup.xml")
            (mkCabFile (xmlToBytes root) t1)).obs :=
        setItem_obs_congr a _ _ _ hmk
      have hsave : archiveSave defl setEnum
            (a.setItem (str2cp "_setup.xml") (mkCabFile (xmlToBytes root) t2))
            c true =
          archiveSave defl setEnum
            (a.setItem (str2cp "_setup.xml") (mkCabFile (xmlToBytes root) t1))
            c true := by
        unfold archiveSave
        exact build_ce_cab_bytes_obs defl setEnum _ _ c none true hobs
      cases hs : archiveSave defl setEnum
          (a.setItem (str2cp "_setup.xml") (mkCabFile (xmlToBytes root) t1))
          c true with
      | ok bs =>
        dsimp only
        have h2 := build_cab_bytes_manifest_val defl setEnum
          { ed with archive := some (a.setItem (str2cp "_setup.xml")
              (mkCabFile (xmlToBytes root) t1)) }
          (a.setItem (str2cp "_setup.xml") (mkCabFile (xmlToBytes root) t1))
          root c t2 rfl (setItem_isEmpty a _ _) hx2
        rw [h2, setItem_setItem, hsave, hs]
      | error m =>
        dsimp only
        have h2 := build_cab_bytes_manifest_val defl setEnum
          { ed with archive := some (a.setItem (str2cp "_setup.xml")
              (mkCabFile (xmlToBytes root) t1)) }
          (a.setItem (str2cp "_setup.xml") (mkCabFile (xmlToBytes root) t1))
          root c t2 rfl (setItem_isEmpty a _ _) hx2
        rw [h2, setItem_setItem, hsave, hs]

/-- Two-byte little-endian encoding round-trips below 2^16. -/
theorem leVal_u16le (x : Nat) (h : x < 65536) : leVal (u16le x) = x := by
  unfold leVal u16le
  simp only [List.foldr]
  omega

/-- Four-byte little-endian encoding round-trips below 2^32. -/
theorem leVal_u32le (x : Nat) (h : x < 4294967296) : leVal (u32le x) = x := by
  unfold leVal u32le
  simp only [List.foldr]
  omega

/-- A one-byte read is the byte. -/
theorem leVal_one (x : Nat) : leVal [x] = x := by
  unfold leVal
  simp only [List.foldr]
  omega

/-- `u16le` always yields two bytes. -/
theorem u16le_length (x : Nat) : (u16le x).length = 2 := rfl

/-- `u32le` always yields four bytes. -/
theorem u32le_length (x : Nat) : (u32le x).length = 4 := rfl

/-- Dropping past a left part drops inside the right part. -/
theorem drop_append_add (pre rest : List Nat) (k : Nat) :
    (pre ++ rest).drop (pre.length + k) = rest.drop k := by
  rw [← List.drop_drop, List.drop_left]

/-- A slice at the boundary of a left part reads the right part. -/
theorem readN_append (pre rest : List Nat) (k n : Nat) :
    readN (pre ++ rest) (pre.length + k) n = readN rest k n := by
  unfold readN
  rw [drop_append_add]

/-- A slice at the start of the right part reads its first bytes. -/
theorem readN_append_zero (pre rest : List Nat) (n : Nat) :
    readN (pre ++ rest) pre.length n = rest.take n := by
  have h0 := readN_append pre rest 0 n
  rw [Nat.add_zero] at h0
  rw [h0]
  unfold readN
  rw [List.drop_zero]

/-- Taking the exact length of a left part yields it. -/
theorem take_append_self (x post : List Nat) : (x ++ post).take x.length = x :=
  List.take_left x post

/-- A slice wholly inside the left part ignores the right part. -/
theorem readN_left (pre rest : List Nat) (k n : Nat) (h : k + n ≤ pre.length) :
    readN (pre ++ rest) k n = readN pre k n := by
  unfold readN
  rw [List.drop_append_eq_append_drop]
  have hk : k ≤ pre.length := le_trans (Nat.le_add_right k n) h
  have h0 : k - pre.length = 0 := Nat.sub_eq_zero_of_le hk
  rw [h0, List.drop_zero, List.take_append_eq_append_take]
  have h1 : n - (pre.drop k).length = 0 := by
    rw [List.length_drop]
    omega
  rw [h1, List.take_zero, List.append_nil]

/-- `findIdx?` over a zero-free block followed by a zero finds the zero. -/
theorem findIdx_zero_after (name post : List Nat)
    (h : ∀ c ∈ name, (c == 0) = false) :
    ∀ s, List.findIdx? (fun b => b == 0) (name ++ 0 :: post) s =
      some (s + name.length) := by
  induction name with
  | nil => intro s; simp [List.findIdx?]
  | cons c cs ih =>
    intro s
    have hc : (c == 0) = false := h c (List.mem_cons_self c cs)
    have ih2 := ih (fun x hx => h x (List.mem_cons_of_mem c hx)) (s + 1)
    rw [List.cons_append, List.findIdx?, if_neg (by simp [hc]), ih2]
    simp only [List.length_cons]
    congr 1
    omega

/-- `findZero` right after a prefix: skips a zero-free name to its NUL. -/
theorem findZero_at (pre name post : List Nat)
    (h : ∀ c ∈ name, (c == 0) = false) :
    findZero (pre ++ name ++ 0 :: post) pre.length =
      some (pre.length + name.length) := by
  unfold findZero
  rw [List.append_assoc, List.drop_left, findIdx_zero_after name post h 0]
  simp

/-- Latin-1 encoding is the identity on byte-valued code points. -/
theorem encodeL1_eq_self (n : PyStr) (h : ∀ c ∈ n, c < 256) :
    encodeL1 n = n := by
  unfold encodeL1
  induction n with
  | nil => rfl
  | cons c cs ih =>
    have hc : c < 256 := h c (List.mem_cons_self c cs)
    rw [List.filter_cons_of_pos (by simpa using hc),
      ih (fun x hx => h x (List.mem_cons_of_mem c hx))]

/-- Parsing `count` serialized CFFOLDER records laid back-to-back after a
prefix recovers each record's reserve bytes and stops at the block's end. -/
theorem parseFolderReserves_flatten (cbf : Nat)
    (recs : List (List Nat × List Nat)) (post : List Nat)
    (h1 : ∀ q ∈ recs, q.1.length = 8) (h2 : ∀ q ∈ recs, q.2.length = cbf) :
    ∀ pre : List Nat,
      parseFolderReserves
          (pre ++ (recs.map (fun q => q.1 ++ q.2)).flatten ++ post)
          pre.length recs.length cbf =
        some (recs.map Prod.snd, pre.length + recs.length * (8 + cbf)) := by
  induction recs with
  | nil =>
    intro pre
    unfold parseFolderReserves
    simp
  | cons q qs ih =>
    intro pre
    have hq1 : q.1.length = 8 := h1 q (List.mem_cons_self q qs)
    have hq2 : q.2.length = cbf := h2 q (List.mem_cons_self q qs)
    have ih2 := ih (fun x hx => h1 x (List.mem_cons_of_mem q hx))
      (fun x hx => h2 x (List.mem_cons_of_mem q hx)) (pre ++ (q.1 ++ q.2))
    have hbuf : pre ++ ((q :: qs).map (fun x => x.1 ++ x.2)).flatten ++ post =
        (pre ++ (q.1 ++ q.2)) ++
          ((qs.map (fun x => x.1 ++ x.2)).flatten ++ post) := by
      simp [List.append_assoc]
    have hb2 : pre ++ ((q :: qs).map (fun x => x.1 ++ x.2)).flatten ++ post =
        pre ++ (q.1 ++ (q.2 ++ ((qs.map (fun x => x.1 ++ x.2)).flatten ++ post))) := by
      simp [List.append_assoc]
    have hlen8 : pre.length + 8 ≤
        (pre ++ ((q :: qs).map (fun x => x.1 ++ x.2)).flatten ++ post).length := by
      rw [hbuf]
      simp only [List.length_append, hq1, hq2]
      omega
    have hres : readN (pre ++ ((q :: qs).map (fun x => x.1 ++ x.2)).flatten ++ post)
        (pre.length + 8) cbf = q.2 := by
      rw [hb2, readN_append, ← hq1, readN_append_zero, ← hq2, take_append_self]
    have hresv : (if cbf ≠ 0 then
        readN (pre ++ ((q :: qs).map (fun x => x.1 ++ x.2)).flatten ++ post)
          (pre.length + 8) cbf else []) = q.2 := by
      by_cases h0 : cbf = 0
      · rw [if_neg (by simp [h0])]
        rw [h0] at hq2
        exact (List.length_eq_zero.mp hq2).symm
      · rw [if_pos h0, hres]
    have hoff : pre.length + 8 + cbf = (pre ++ (q.1 ++ q.2)).length := by
      simp only [List.length_append, hq1, hq2]
      omega
    rw [List.length_cons]
    unfold parseFolderReserves
    rw [if_pos hlen8]
    simp only [hresv]
    rw [hoff, hbuf]
    have hb3 : pre ++ (q.1 ++ q.2) ++
          (List.map (fun x => x.1 ++ x.2) qs).flatten ++ post =
        pre ++ (q.1 ++ q.2) ++
          ((List.map (fun x => x.1 ++ x.2) qs).flatten ++ post) := by
      simp [List.append_assoc]
    rw [hb3] at ih2
    rw [ih2]
    simp only [List.map_cons]
    have harith : (pre ++ (q.1 ++ q.2)).length + qs.length * (8 + cbf) =
        pre.length + (qs.length + 1) * (8 + cbf) := by
      simp only [List.length_append, hq1, hq2]
      ring
    rw [harith]

/-- Parsing `count` serialized CFFILE records (16 fixed bytes, then a
NUL-terminated zero-free name) recovers each name with its folder index. -/
theorem parseFileEntries_flatten (items : List (List Nat × PyStr × Nat))
    (post : List Nat)
    (h16 : ∀ q ∈ items, q.1.length = 16)
    (hidx : ∀ q ∈ items, leVal (readN q.1 8 2) = q.2.2)
    (hnz : ∀ q ∈ items, ∀ c ∈ q.2.1, (c == 0) = false) :
    ∀ pre : List Nat,
      parseFileEntries
          (pre ++ (items.map (fun x => x.1 ++ (x.2.1 ++ [0]))).flatten ++ post)
          pre.length items.length =
        some (items.map (fun x => (x.2.1, x.2.2))) := by
  induction items with
  | nil =>
    intro pre
    unfold parseFileEntries
    simp
  | cons q qs ih =>
    intro pre
    have hq16 : q.1.length = 16 := h16 q (List.mem_cons_self q qs)
    have hqi : leVal (readN q.1 8 2) = q.2.2 := hidx q (List.mem_cons_self q qs)
    have hqz : ∀ c ∈ q.2.1, (c == 0) = false := hnz q (List.mem_cons_self q qs)
    have ih2 := ih (fun x hx => h16 x (List.mem_cons_of_mem q hx))
      (fun x hx => hidx x (List.mem_cons_of_mem q hx))
      (fun x hx => hnz x (List.mem_cons_of_mem q hx))
      (pre ++ (q.1 ++ (q.2.1 ++ [0])))
    have hb2 : pre ++ ((q :: qs).map (fun x => x.1 ++ (x.2.1 ++ [0]))).flatten ++ post =
        pre ++ (q.1 ++ ((q.2.1 ++ [0]) ++
          ((qs.map (fun x => x.1 ++ (x.2.1 ++ [0]))).flatten ++ post))) := by
      simp [List.append_assoc]
    have hb3 : pre ++ ((q :: qs).map (fun x => x.1 ++ (x.2.1 ++ [0]))).flatten ++ post =
        (pre ++ q.1) ++ (q.2.1 ++ 0 ::
          ((qs.map (fun x => x.1 ++ (x.2.1 ++ [0]))).flatten ++ post)) := by
      simp [List.append_assoc]
    have hb4 : pre ++ ((q :: qs).map (fun x => x.1 ++ (x.2.1 ++ [0]))).flatten ++ post =
        (pre ++ (q.1 ++ (q.2.1 ++ [0]))) ++
          ((qs.map (fun x => x.1 ++ (x.2.1 ++ [0]))).flatten ++ post) := by
      simp [List.append_assoc]
    have hlen16 : pre.length + 16 ≤
        (pre ++ ((q :: qs).map (fun x => x.1 ++ (x.2.1 ++ [0]))).flatten ++ post).length := by
      rw [hb2]
      simp only [List.length_append, hq16]
      omega
    have hfidx : leVal (readN
        (pre ++ ((q :: qs).map (fun x => x.1 ++ (x.2.1 ++ [0]))).flatten ++ post)
        (pre.length + 8) 2) = q.2.2 := by
      rw [hb2, readN_append, readN_left _ _ 8 2 (by omega), hqi]
    have hoff16 : pre.length + 16 = (pre ++ q.1).length := by
      simp only [List.length_append, hq16]
    have hb3L : pre ++ ((q :: qs).map (fun x => x.1 ++ (x.2.1 ++ [0]))).flatten ++ post =
        pre ++ q.1 ++ q.2.1 ++ 0 ::
          ((qs.map (fun x => x.1 ++ (x.2.1 ++ [0]))).flatten ++ post) := by
      simp [List.append_assoc]
    have hfz : findZero
        (pre ++ ((q :: qs).map (fun x => x.1 ++ (x.2.1 ++ [0]))).flatten ++ post)
        (pre.length + 16) = some (pre.length + 16 + q.2.1.length) := by
      rw [hb3L, hoff16]
      exact findZero_at (pre ++ q.1) q.2.1
        ((qs.map (fun x => x.1 ++ (x.2.1 ++ [0]))).flatten ++ post) hqz
    have hname : readN
        (pre ++ ((q :: qs).map (fun x => x.1 ++ (x.2.1 ++ [0]))).flatten ++ post)
        (pre.length + 16) (pre.length + 16 + q.2.1.length - (pre.length + 16)) =
        q.2.1 := by
      have hc : pre.length + 16 + q.2.1.length - (pre.length + 16) = q.2.1.length := by
        omega
      rw [hc, hb3, hoff16, readN_append_zero, take_append_self]
    have hrecoff : pre.length + 16 + q.2.1.length + 1 =
        (pre ++ (q.1 ++ (q.2.1 ++ [0]))).length := by
      simp only [List.length_append, hq16, List.length_cons, List.length_nil]
      omega
    rw [List.length_cons]
    unfold parseFileEntries
    rw [if_pos hlen16, hfz]
    simp only [hfidx, hname]
    rw [hrecoff, hb4]
    have hb5 : pre ++ (q.1 ++ (q.2.1 ++ [0])) ++
          (qs.map (fun x => x.1 ++ (x.2.1 ++ [0]))).flatten ++ post =
        pre ++ (q.1 ++ (q.2.1 ++ [0])) ++
          ((qs.map (fun x => x.1 ++ (x.2.1 ++ [0]))).flatten ++ post) := by
      simp [List.append_assoc]
    rw [hb5] at ih2
    rw [ih2]
    simp [decodeL1]

/-- The `_order_names` fold over a duplicate-free wishlist wholly contained
in the remaining-names set emits the wishlist and erases it from the set. -/
theorem order_fold (l : List PyStr) (hnd : l.Nodup) :
    ∀ (acc rem : List PyStr), (∀ n ∈ l, n ∈ rem) →
      l.foldl (fun (st : List PyStr × List PyStr) name =>
          if st.2.contains name then (st.1 ++ [name], st.2.erase name) else st)
        (acc, rem) =
      (acc ++ l, l.foldl (fun r n => r.erase n) rem) := by
  induction l with
  | nil => intro acc rem _; simp
  | cons n tl ih =>
    intro acc rem hsub
    have hmem : rem.contains n = true :=
      List.elem_iff.mpr (hsub n (List.mem_cons_self n tl))
    have hnd2 : tl.Nodup := hnd.of_cons
    have hnin : n ∉ tl := (List.nodup_cons.mp hnd).1
    have hsub2 : ∀ m ∈ tl, m ∈ rem.erase n := by
      intro m hm
      have hne : m ≠ n := fun he => hnin (he ▸ hm)
      exact (List.mem_erase_of_ne hne).mpr (hsub m (List.mem_cons_of_mem n hm))
    simp only [List.foldl_cons, hmem, if_true]
    rw [ih hnd2 (acc ++ [n]) (rem.erase n) hsub2]
    simp

/-- Erasing every element of a duplicate-free list from itself empties it. -/
theorem foldl_erase_self (l : List PyStr) (hnd : l.Nodup) :
    l.foldl (fun r n => r.erase n) l = [] := by
  induction l with
  | nil => rfl
  | cons n tl ih =>
    rw [List.foldl_cons, List.erase_cons_head]
    exact ih hnd.of_cons

/-- With an unchanged key set, `_order_names` reproduces the template's file
order exactly (any set enumeration of the empty set being empty). -/
theorem order_names_self (setEnum : List PyStr → List PyStr)
    (t : CabLayoutTemplate) (sort : Bool) (hnd : t.file_order.Nodup)
    (hse : setEnum [] = []) :
    order_names setEnum t.file_order (some t) sort = t.file_order := by
  unfold order_names
  dsimp only
  rw [order_fold t.file_order hnd [] t.file_order (fun n hn => hn),
    foldl_erase_self t.file_order hnd]
  cases sort <;> simp [hse, pySorted]

/-- When every name carries a template folder key, `buildKeyed` is the plain
grouping fold by that key. -/
theorem buildKeyed_eq_kfold (t : CabLayoutTemplate) (ordered : List PyStr)
    (hk : ∀ n ∈ ordered, (assocGet t.file_folders n).isSome = true) :
    buildKeyed t ordered = ordered.foldl
      (fun g n => keyedInsert g ((assocGet t.file_folders n).getD 0) n) [] := by
  unfold buildKeyed
  suffices h : ∀ (l : List PyStr), (∀ n ∈ l, (assocGet t.file_folders n).isSome = true) →
      ∀ (g : List (Nat × List PyStr)) (c : Nat),
      (l.foldl (fun (st : List (Nat × List PyStr) × Nat) name =>
          match assocGet t.file_folders name with
          | some k => (keyedInsert st.1 k name, st.2)
          | none => (keyedInsert st.1 st.2 name, st.2 + 1)) (g, c)).1 =
        l.foldl (fun g n => keyedInsert g ((assocGet t.file_folders n).getD 0) n) g by
    exact h ordered hk [] (nextKeyStart t.file_folders)
  intro l
  induction l with
  | nil => intro _ g c; rfl
  | cons n tl ih =>
    intro hl g c
    have hs : (assocGet t.file_folders n).isSome = true :=
      hl n (List.mem_cons_self n tl)
    obtain ⟨k, hk0⟩ := Option.isSome_iff_exists.mp hs
    rw [List.foldl_cons, List.foldl_cons, hk0]
    dsimp only [Option.getD_some]
    exact ih (fun m hm => hl m (List.mem_cons_of_mem n hm)) (keyedInsert g k n) c

/-- `keyedInsert` keeps the group keys duplicate-free. -/
theorem keyedInsert_nodup (g : List (Nat × List PyStr)) (k : Nat) (n : PyStr)
    (h : (g.map Prod.fst).Nodup) : ((keyedInsert g k n).map Prod.fst).Nodup := by
  unfold keyedInsert
  by_cases ha : g.any (fun e => e.1 == k) = true
  · rw [if_pos ha]
    have hmf : (g.map (fun e => if e.1 == k then (e.1, e.2 ++ [n]) else e)).map Prod.fst =
        g.map Prod.fst := by
      rw [List.map_map]
      apply List.map_congr_left
      intro e _
      by_cases he : (e.1 == k) = true <;> simp [Function.comp, he]
    rw [hmf]
    exact h
  · rw [if_neg ha]
    rw [List.map_append]
    simp only [List.map_cons, List.map_nil]
    rw [List.nodup_append]
    refine ⟨h, List.nodup_singleton k, ?_⟩
    intro x hx
    simp only [List.mem_singleton]
    intro hxk
    rw [hxk] at hx
    obtain ⟨e, he, hek⟩ := List.mem_map.mp hx
    have : g.any (fun e => e.1 == k) = true :=
      List.any_eq_true.mpr ⟨e, he, by simp [hek]⟩
    exact ha this

/-- `keyedInsert` of a name at its own key keeps groups key-consistent. -/
theorem keyedInsert_consistent (key : PyStr → Nat) (g : List (Nat × List PyStr))
    (k : Nat) (n : PyStr) (hg : ∀ p ∈ g, ∀ m ∈ p.2, key m = p.1) (hn : key n = k) :
    ∀ p ∈ keyedInsert g k n, ∀ m ∈ p.2, key m = p.1 := by
  unfold keyedInsert
  by_cases ha : g.any (fun e => e.1 == k) = true
  · rw [if_pos ha]
    intro p hp m hm
    obtain ⟨e, he, hpe⟩ := List.mem_map.mp hp
    by_cases hek : (e.1 == k) = true
    · rw [if_pos hek] at hpe
      subst hpe
      simp only at hm ⊢
      rcases List.mem_append.mp hm with h1 | h1
      · exact hg e he m h1
      · rw [List.mem_singleton.mp h1, hn]
        exact (by simpa using hek : e.1 = k).symm
    · rw [if_neg hek] at hpe
      subst hpe
      exact hg e he m hm
  · rw [if_neg ha]
    intro p hp m hm
    rcases List.mem_append.mp hp with h1 | h1
    · exact hg p h1 m hm
    · rw [List.mem_singleton.mp h1] at hm ⊢
      simp only at hm ⊢
      rw [List.mem_singleton.mp hm, hn]

/-- `keyedInsert` never loses a name already placed in a group. -/
theorem keyedInsert_mem_mono (g : List (Nat × List PyStr)) (k : Nat) (n : PyStr)
    (p : Nat × List PyStr) (hp : p ∈ g) (m : PyStr) (hm : m ∈ p.2) :
    ∃ p2 ∈ keyedInsert g k n, m ∈ p2.2 := by
  unfold keyedInsert
  by_cases ha : g.any (fun e => e.1 == k) = true
  · rw [if_pos ha]
    refine ⟨if p.1 == k then (p.1, p.2 ++ [n]) else p, List.mem_map_of_mem _ hp, ?_⟩
    by_cases hpk : (p.1 == k) = true
    · simp [hpk, List.mem_append, hm]
    · simp [hpk, hm]
  · rw [if_neg ha]
    exact ⟨p, List.mem_append_left _ hp, hm⟩

/-- `keyedInsert` places the inserted name in a group carrying its key. -/
theorem keyedInsert_self_mem (g : List (Nat × List PyStr)) (k : Nat) (n : PyStr) :
    ∃ p ∈ keyedInsert g k n, n ∈ p.2 ∧ p.1 = k := by
  unfold keyedInsert
  by_cases ha : g.any (fun e => e.1 == k) = true
  · rw [if_pos ha]
    obtain ⟨e, he, hek⟩ := List.any_eq_true.mp ha
    refine ⟨(e.1, e.2 ++ [n]), ?_, ?_, by simpa using hek⟩
    · have : (e.1, e.2 ++ [n]) = if e.1 == k then (e.1, e.2 ++ [n]) else e := by
        rw [if_pos hek]
      rw [this]
      exact List.mem_map_of_mem _ he
    · simp
  · rw [if_neg ha]
    exact ⟨(k, [n]), List.mem_append_right _ (List.mem_singleton_self _), by simp, rfl⟩

/-- Invariants of the keyed-grouping fold: keys stay duplicate-free, groups
stay key-consistent, placed names persist, and every processed name lands in
some group. -/
theorem kfold_invs (key : PyStr → Nat) (l : List PyStr) :
    ∀ g : List (Nat × List PyStr),
      (g.map Prod.fst).Nodup → (∀ p ∈ g, ∀ m ∈ p.2, key m = p.1) →
      (((l.foldl (fun g n => keyedInsert g (key n) n) g).map Prod.fst).Nodup ∧
       (∀ p ∈ l.foldl (fun g n => keyedInsert g (key n) n) g, ∀ m ∈ p.2, key m = p.1) ∧
       (∀ p ∈ g, ∀ m ∈ p.2,
         ∃ p2 ∈ l.foldl (fun g n => keyedInsert g (key n) n) g, m ∈ p2.2) ∧
       (∀ n ∈ l, ∃ p ∈ l.foldl (fun g n => keyedInsert g (key n) n) g, n ∈ p.2)) := by
  induction l with
  | nil =>
    intro g h1 h2
    exact ⟨h1, h2, fun p hp m hm => ⟨p, hp, hm⟩, by simp⟩
  | cons n tl ih =>
    intro g h1 h2
    simp only [List.foldl_cons]
    have h1b := keyedInsert_nodup g (key n) n h1
    have h2b := keyedInsert_consistent key g (key n) n h2 rfl
    obtain ⟨ihn, ihc, ihmono, ihall⟩ := ih (keyedInsert g (key n) n) h1b h2b
    refine ⟨ihn, ihc, ?_, ?_⟩
    · intro p hp m hm
      obtain ⟨p2, hp2, hm2⟩ := keyedInsert_mem_mono g (key n) n p hp m hm
      exact ihmono p2 hp2 m hm2
    · intro m hm
      rcases List.mem_cons.mp hm with h | h
      · obtain ⟨p, hp, hnp, _⟩ := keyedInsert_self_mem g (key n) n
        subst h
        exact ihmono p hp m hnp
      · exact ihall m h

/-- Two group entries of a key-duplicate-free list with equal keys are the
same entry. -/
theorem eq_of_fst_eq_of_nodup (G : List (Nat × List PyStr))
    (h : (G.map Prod.fst).Nodup) (p1 p2 : Nat × List PyStr)
    (h1 : p1 ∈ G) (h2 : p2 ∈ G) (he : p1.1 = p2.1) : p1 = p2 := by
  induction G with
  | nil => cases h1
  | cons g tl ih =>
    rw [List.map_cons, List.nodup_cons] at h
    rcases List.mem_cons.mp h1 with ha | ha <;> rcases List.mem_cons.mp h2 with hb | hb
    · rw [ha, hb]
    · exfalso
      subst ha
      exact h.1 (by rw [he]; exact List.mem_map_of_mem Prod.fst hb)
    · exfalso
      subst hb
      exact h.1 (by rw [← he]; exact List.mem_map_of_mem Prod.fst ha)
    · exact ih h.2 ha hb

/-- A hit in the left table resolves an association lookup over an append. -/
theorem assocGet_append_left (l1 l2 : List (PyStr × Nat)) (n : PyStr) (v : Nat)
    (h : assocGet l1 n = some v) : assocGet (l1 ++ l2) n = some v := by
  unfold assocGet at *
  rw [List.find?_append]
  cases hf : List.find? (fun e => e.1 == n) l1 with
  | none => rw [hf] at h; cases h
  | some e => rw [hf] at h; simp [Option.or, h]
  -- the `simp` closes `(some e).or _ |>.map snd = some v` from `h`

/-- A miss in the left table defers an association lookup to the right. -/
theorem assocGet_append_right (l1 l2 : List (PyStr × Nat)) (n : PyStr)
    (h : assocGet l1 n = none) : assocGet (l1 ++ l2) n = assocGet l2 n := by
  unfold assocGet at *
  rw [List.find?_append]
  cases hf : List.find? (fun e => e.1 == n) l1 with
  | none => simp [Option.or]
  | some e => rw [hf] at h; simp at h

/-- Looking up a present key in a tabulated function finds its value. -/
theorem assocGet_map_self (g : PyStr → Nat) (l : List PyStr) (n : PyStr)
    (h : n ∈ l) : assocGet (l.map (fun m => (m, g m))) n = some (g n) := by
  induction l with
  | nil => cases h
  | cons m tl ih =>
    unfold assocGet
    rw [List.map_cons]
    cases hm : (m == n) with
    | true =>
      have hmn : m = n := by simpa using hm
      simp only [List.find?_cons, hm]
      subst hmn
      rfl
    | false =>
      simp only [List.find?_cons, hm]
      have hn2 : n ∈ tl := by
        rcases List.mem_cons.mp h with h0 | h0
        · exfalso; rw [h0] at hm; simp at hm
        · exact h0
      exact ih hn2

/-- Looking up an absent key in a tabulated function misses. -/
theorem assocGet_map_none (g : PyStr → Nat) (l : List PyStr) (n : PyStr)
    (h : n ∉ l) : assocGet (l.map (fun m => (m, g m))) n = none := by
  induction l with
  | nil => rfl
  | cons m tl ih =>
    unfold assocGet
    rw [List.map_cons]
    have hm : (m == n) = false := by
      cases hb : (m == n)
      · rfl
      · exfalso; exact h (by simp [List.mem_cons]; left; symm; simpa using hb)
    simp only [List.find?_cons, hm]
    exact ih (fun h2 => h (List.mem_cons_of_mem m h2))

/-- The folder-index table maps a name contained in exactly one folder to
that folder's position. -/
theorem fibn_unique (n : PyStr) :
    ∀ (fs : List FolderBuild) (b i : Nat) (hi : i < fs.length),
      n ∈ (fs.get ⟨i, hi⟩).names →
      (∀ j (hj : j < fs.length), j ≠ i → n ∉ (fs.get ⟨j, hj⟩).names) →
      assocGet (((List.enumFrom b fs).map
        (fun p => p.2.names.map (fun m => (m, p.1)))).flatten) n = some (b + i) := by
  intro fs
  induction fs with
  | nil => intro b i hi _ _; exact absurd hi (Nat.not_lt_zero i)
  | cons f tl ih =>
    intro b i hi hmem huniq
    cases i with
    | zero =>
      have hm : n ∈ f.names := hmem
      rw [show List.enumFrom b (f :: tl) = (b, f) :: List.enumFrom (b + 1) tl from rfl,
        List.map_cons, List.flatten_cons]
      rw [assocGet_append_left _ _ _ _ (assocGet_map_self (fun _ => b) f.names n hm)]
      simp
    | succ i2 =>
      have hlen : (f :: tl).length = tl.length + 1 := rfl
      have hi2 : i2 < tl.length := by
        simpa [Nat.succ_lt_succ_iff] using hi
      have hnf : n ∉ f.names :=
        huniq 0 (Nat.succ_pos _) (by omega)
      have hmem2 : n ∈ (tl.get ⟨i2, hi2⟩).names := hmem
      have huniq2 : ∀ j (hj : j < tl.length), j ≠ i2 → n ∉ (tl.get ⟨j, hj⟩).names := by
        intro j hj hji
        exact huniq (j + 1) (by omega) (by omega)
      rw [show List.enumFrom b (f :: tl) = (b, f) :: List.enumFrom (b + 1) tl from rfl,
        List.map_cons, List.flatten_cons]
      rw [assocGet_append_right _ _ _ (assocGet_map_none (fun _ => b) f.names n hnf)]
      rw [ih (b + 1) i2 hi2 hmem2 huniq2]
      congr 1
      omega

/-- Membership of a key among first components, as the `any` the code runs. -/
theorem any_fst_eq_contains (l : List (PyStr × Nat)) (k : PyStr) :
    l.any (fun e => e.1 == k) = (l.map Prod.fst).contains k := by
  induction l with
  | nil => rfl
  | cons e tl ih =>
    simp only [List.any_cons, List.map_cons, List.contains_cons]
    rw [ih]
    congr 1
    cases he : (e.1 == k)
    · have h1 : (k == e.1) = false := by
        cases hb : (k == e.1)
        · rfl
        · exfalso
          have hke : k = e.1 := by simpa using hb
          rw [hke] at he
          simp at he
      rw [h1]
    · have h1 : (k == e.1) = true := by
        have : e.1 = k := by simpa using he
        simp [this]
      rw [h1]

/-- Folding dict insertions of fresh, duplicate-free keys appends them. -/
theorem foldl_assocSet_append (pairs : List (PyStr × Nat)) :
    ∀ acc : List (PyStr × Nat),
      (∀ e ∈ pairs, (acc.map Prod.fst).contains e.1 = false) →
      (pairs.map Prod.fst).Nodup →
      pairs.foldl (fun m e => assocSet m e.1 e.2) acc = acc ++ pairs := by
  induction pairs with
  | nil => intro acc _ _; simp
  | cons e tl ih =>
    intro acc hfresh hnd
    have he : (acc.map Prod.fst).contains e.1 = false :=
      hfresh e (List.mem_cons_self e tl)
    have hset : assocSet acc e.1 e.2 = acc ++ [(e.1, e.2)] := by
      unfold assocSet
      rw [any_fst_eq_contains, he]
      simp
    rw [List.foldl_cons, hset]
    have hfresh2 : ∀ x ∈ tl, ((acc ++ [(e.1, e.2)]).map Prod.fst).contains x.1 = false := by
      intro x hx
      rw [List.map_append]
      simp only [List.map_cons, List.map_nil]
      have h1 : (acc.map Prod.fst).contains x.1 = false :=
        hfresh x (List.mem_cons_of_mem e hx)
      cases hb : (acc.map Prod.fst ++ [e.1]).contains x.1
      · rfl
      · exfalso
        rcases List.mem_append.mp (List.elem_iff.mp hb) with hm | hm
        · have hc : (acc.map Prod.fst).contains x.1 = true := List.elem_iff.mpr hm
          rw [h1] at hc
          cases hc
        · have hxe : x.1 = e.1 := List.mem_singleton.mp hm
          rw [List.map_cons, List.nodup_cons] at hnd
          exact hnd.1 (hxe ▸ List.mem_map_of_mem Prod.fst hx)
    have hnd2 : (tl.map Prod.fst).Nodup := by
      rw [List.map_cons, List.nodup_cons] at hnd
      exact hnd.2
    rw [ih (acc ++ [(e.1, e.2)]) hfresh2 hnd2]
    simp

/-- Every folder `_build_folders` emits carries exactly `cb_cffolder` reserve
bytes. -/
theorem build_folders_reserve_length (defl : List Nat → List Nat)
    (archive : CabArchive) (ordered : List PyStr) (t : CabLayoutTemplate)
    (c : Bool) :
    ∀ f ∈ build_folders defl archive ordered t c,
      f.reserve.length = t.cb_cffolder := by
  intro f hf
  unfold build_folders at hf
  obtain ⟨kv, _, hfe⟩ := List.mem_map.mp hf
  subst hfe
  simp only [List.length_take, List.length_append, List.length_replicate]
  by_cases hlt : (if kv.1 < t.folder_reserves.length
      then t.folder_reserves.getD kv.1 [] else List.replicate t.cb_cffolder 0).length <
      t.cb_cffolder
  · rw [if_pos hlt]
    simp only [List.length_append, List.length_replicate]
    omega
  · rw [if_neg hlt]
    omega

/-- `_build_folders` keys and name groups are those of the grouping fold. -/
theorem build_folders_key_names (defl : List Nat → List Nat)
    (archive : CabArchive) (ordered : List PyStr) (t : CabLayoutTemplate)
    (c : Bool) :
    (build_folders defl archive ordered t c).map
        (fun f => (f.folder_key, f.names)) = buildKeyed t ordered := by
  unfold build_folders
  rw [List.map_map]
  conv_rhs => rw [← List.map_id (buildKeyed t ordered)]
  apply List.map_congr_left
  intro kv _
  rfl

/-- `keyedInsert` grows the group list by at most one entry. -/
theorem keyedInsert_length (g : List (Nat × List PyStr)) (k : Nat) (n : PyStr) :
    g.length ≤ (keyedInsert g k n).length ∧
      (keyedInsert g k n).length ≤ g.length + 1 := by
  unfold keyedInsert
  by_cases ha : g.any (fun e => e.1 == k) = true
  · rw [if_pos ha]; simp
  · rw [if_neg ha]; simp

/-- The grouping fold never shrinks and adds at most one group per name. -/
theorem kfold_length (key : PyStr → Nat) (l : List PyStr) :
    ∀ g : List (Nat × List PyStr),
      g.length ≤ (l.foldl (fun g n => keyedInsert g (key n) n) g).length ∧
      (l.foldl (fun g n => keyedInsert g (key n) n) g).length ≤
        g.length + l.length := by
  induction l with
  | nil => intro g; simp
  | cons n tl ih =>
    intro g
    simp only [List.foldl_cons, List.length_cons]
    have h1 := keyedInsert_length g (key n) n
    have h2 := ih (keyedInsert g (key n) n)
    exact ⟨by omega, by omega⟩

/-- Grouping a nonempty name list yields at least one group. -/
theorem kfold_pos (key : PyStr → Nat) (n : PyStr) (tl : List PyStr)
    (g : List (Nat × List PyStr)) :
    0 < ((n :: tl).foldl (fun g n => keyedInsert g (key n) n) g).length := by
  simp only [List.foldl_cons]
  have h1 : 1 ≤ (keyedInsert g (key n) n).length := by
    unfold keyedInsert
    by_cases ha : g.any (fun e => e.1 == key n) = true
    · rw [if_pos ha]
      simp only [List.length_map]
      obtain ⟨e, he, _⟩ := List.any_eq_true.mp ha
      exact List.length_pos.mpr (fun hnil => by rw [hnil] at he; cases he)
    · rw [if_neg ha]; simp
  have h2 := (kfold_length key tl (keyedInsert g (key n) n)).1
  omega

/-- The fixed CFHEADER is 36 bytes. -/
theorem packCFHeader_length (cs co fc flc fl sid : Nat) :
    (packCFHeader cs co fc flc fl sid).length = 36 := rfl

/-- CFHEADER bytes 0-3: the MSCF signature. -/
theorem packCFHeader_sig (cs co fc flc fl sid : Nat) :
    readN (packCFHeader cs co fc flc fl sid) 0 4 = [77, 83, 67, 70] := rfl

/-- CFHEADER bytes 16-19: the CFFILE-table offset. -/
theorem packCFHeader_coff (cs co fc flc fl sid : Nat) :
    readN (packCFHeader cs co fc flc fl sid) 16 4 = u32le co := rfl

/-- CFHEADER bytes 26-27: the folder count. -/
theorem packCFHeader_nfold (cs co fc flc fl sid : Nat) :
    readN (packCFHeader cs co fc flc fl sid) 26 2 = u16le fc := rfl

/-- CFHEADER bytes 28-29: the file count. -/
theorem packCFHeader_nfile (cs co fc flc fl sid : Nat) :
    readN (packCFHeader cs co fc flc fl sid) 28 2 = u16le flc := rfl

/-- CFHEADER bytes 30-31: the flags word. -/
theorem packCFHeader_flags (cs co fc flc fl sid : Nat) :
    readN (packCFHeader cs co fc flc fl sid) 30 2 = u16le fl := rfl

/-- CFHEADER bytes 32-33: the cabinet-set id. -/
theorem packCFHeader_setid (cs co fc flc fl sid : Nat) :
    readN (packCFHeader cs co fc flc fl sid) 32 2 = u16le sid := rfl

/-- Taking inside the left part of an append ignores the right part. -/
theorem take_append_of_le (x y : List Nat) (n : Nat) (h : n ≤ x.length) :
    (x ++ y).take n = x.take n := by
  rw [List.take_append_eq_append_take]
  have h0 : n - x.length = 0 := by omega
  rw [h0, List.take_zero, List.append_nil]

/-- The CFFOLDER blob which `_build_folder_and_data_blobs` accumulates is a
flat list of records: 8 fixed bytes each, then the folder's reserve when
`cb_cffolder` is nonzero. -/
theorem bfdb_recs (cb_cffolder cb_cfdata : Nat) (c : Bool)
    (folders : List FolderBuild) :
    ∀ (fr d : List Nat) (cur : Nat),
      ∃ recs : List (List Nat × List Nat),
        (folders.foldl (folderDataStep cb_cffolder cb_cfdata c) (fr, d, cur)).1 =
          fr ++ (recs.map (fun q => q.1 ++ q.2)).flatten ∧
        recs.length = folders.length ∧
        (∀ q ∈ recs, q.1.length = 8) ∧
        recs.map Prod.snd =
          folders.map (fun f => if cb_cffolder ≠ 0 then f.reserve else []) := by
  induction folders with
  | nil => intro fr d cur; exact ⟨[], by simp, rfl, by simp, rfl⟩
  | cons f tl ih =>
    intro fr d cur
    simp only [List.foldl_cons]
    have hstep : folderDataStep cb_cffolder cb_cfdata c (fr, d, cur) f =
        (fr ++ (u32le cur ++ u16le f.blocks.length ++ u16le (if c then 1 else 0) ++
          (if cb_cffolder ≠ 0 then f.reserve else [])),
         d ++ (f.blocks.map (blockBytes cb_cfdata)).flatten,
         cur + ((f.blocks.map (blockBytes cb_cfdata)).flatten).length) := rfl
    rw [hstep]
    obtain ⟨recs, h1, h2, h3, h4⟩ := ih
      (fr ++ (u32le cur ++ u16le f.blocks.length ++ u16le (if c then 1 else 0) ++
        (if cb_cffolder ≠ 0 then f.reserve else [])))
      (d ++ (f.blocks.map (blockBytes cb_cfdata)).flatten)
      (cur + ((f.blocks.map (blockBytes cb_cfdata)).flatten).length)
    refine ⟨(u32le cur ++ u16le f.blocks.length ++ u16le (if c then 1 else 0),
      if cb_cffolder ≠ 0 then f.reserve else []) :: recs, ?_, ?_, ?_, ?_⟩
    · rw [h1]
      simp [List.append_assoc]
    · simp [h2]
    · intro q hq
      rcases List.mem_cons.mp hq with h | h
      · rw [h]; rfl
      · exact h3 q h
    · simp only [List.map_cons, h4]

/-- Total length of a flat record block with fixed record sizes. -/
theorem recs_flatten_length (cbf : Nat) (recs : List (List Nat × List Nat))
    (h1 : ∀ q ∈ recs, q.1.length = 8) (h2 : ∀ q ∈ recs, q.2.length = cbf) :
    ((recs.map (fun q => q.1 ++ q.2)).flatten).length = recs.length * (8 + cbf) := by
  induction recs with
  | nil => simp
  | cons q tl ih =>
    simp only [List.map_cons, List.flatten_cons, List.length_append,
      List.length_cons]
    rw [ih (fun x hx => h1 x (List.mem_cons_of_mem q hx))
      (fun x hx => h2 x (List.mem_cons_of_mem q hx)),
      h1 q (List.mem_cons_self q tl), h2 q (List.mem_cons_self q tl)]
    ring

/-- Re-parsing a reserve-free assembled cabinet (header, CFFOLDER block,
CFFILE block, data) recovers the layout the blocks encode. -/
theorem parse_assembled_plain (cabSize co sid : Nat)
    (folderRecs : List (List Nat × List Nat))
    (fileItems : List (List Nat × PyStr × Nat)) (data : List Nat)
    (hsid : sid < 65536)
    (hfr8 : ∀ q ∈ folderRecs, q.1.length = 8)
    (hfrc : ∀ q ∈ folderRecs, q.2.length = 0)
    (hfc : folderRecs.length < 65536) (hfl : fileItems.length < 65536)
    (h16 : ∀ q ∈ fileItems, q.1.length = 16)
    (hidx : ∀ q ∈ fileItems, leVal (readN q.1 8 2) = q.2.2)
    (hnz : ∀ q ∈ fileItems, ∀ ch ∈ q.2.1, (ch == 0) = false)
    (hco : co = 36 + folderRecs.length * 8) (hco32 : co < 4294967296) :
    parse_cab_layout
        (packCFHeader cabSize co folderRecs.length fileItems.length 0 sid ++
          (folderRecs.map (fun q => q.1 ++ q.2)).flatten ++
          (fileItems.map (fun x => x.1 ++ (x.2.1 ++ [0]))).flatten ++ data) =
      some { set_id := sid, cb_cfheader := 0, cb_cffolder := 0, cb_cfdata := 0,
             header_reserve := [], folder_reserves := folderRecs.map Prod.snd,
             file_order := (fileItems.map (fun x => (x.2.1, x.2.2))).map Prod.fst,
             file_folders := (fileItems.map (fun x => (x.2.1, x.2.2))).foldl
               (fun m e => assocSet m e.1 e.2) [] } := by
  have hH : (packCFHeader cabSize co folderRecs.length fileItems.length 0 sid).length = 36 :=
    packCFHeader_length cabSize co folderRecs.length fileItems.length 0 sid
  set H := packCFHeader cabSize co folderRecs.length fileItems.length 0 sid with hHdef
  set FB := (folderRecs.map (fun q => q.1 ++ q.2)).flatten with hFBdef
  set CF := (fileItems.map (fun x => x.1 ++ (x.2.1 ++ [0]))).flatten with hCFdef
  have hassoc : H ++ FB ++ CF ++ data = H ++ (FB ++ (CF ++ data)) := by
    simp [List.append_assoc]
  have h36 : 36 ≤ (H ++ FB ++ CF ++ data).length := by
    simp only [List.length_append, hH]
    omega
  have hsig : readN (H ++ FB ++ CF ++ data) 0 4 = [77, 83, 67, 70] := by
    rw [hassoc, readN_left _ _ 0 4 (by omega)]
    exact packCFHeader_sig cabSize co folderRecs.length fileItems.length 0 sid
  have hoffeq : leVal (readN (H ++ FB ++ CF ++ data) 16 4) = co := by
    rw [hassoc, readN_left _ _ 16 4 (by omega),
      packCFHeader_coff cabSize co folderRecs.length fileItems.length 0 sid,
      leVal_u32le co hco32]
  have hnfold : leVal (readN (H ++ FB ++ CF ++ data) 26 2) = folderRecs.length := by
    rw [hassoc, readN_left _ _ 26 2 (by omega),
      packCFHeader_nfold cabSize co folderRecs.length fileItems.length 0 sid,
      leVal_u16le _ hfc]
  have hnfile : leVal (readN (H ++ FB ++ CF ++ data) 28 2) = fileItems.length := by
    rw [hassoc, readN_left _ _ 28 2 (by omega),
      packCFHeader_nfile cabSize co folderRecs.length fileItems.length 0 sid,
      leVal_u16le _ hfl]
  have hflags : leVal (readN (H ++ FB ++ CF ++ data) 30 2) = 0 := by
    rw [hassoc, readN_left _ _ 30 2 (by omega),
      packCFHeader_flags cabSize co folderRecs.length fileItems.length 0 sid,
      leVal_u16le 0 (by omega)]
  have hsidv : leVal (readN (H ++ FB ++ CF ++ data) 32 2) = sid := by
    rw [hassoc, readN_left _ _ 32 2 (by omega),
      packCFHeader_setid cabSize co folderRecs.length fileItems.length 0 sid,
      leVal_u16le sid hsid]
  have hfold : parseFolderReserves (H ++ FB ++ CF ++ data) 36 folderRecs.length 0 =
      some (folderRecs.map Prod.snd, 36 + folderRecs.length * 8) := by
    have h0 := parseFolderReserves_flatten 0 folderRecs (CF ++ data) hfr8 hfrc H
    rw [hH] at h0
    have hb : H ++ FB ++ (CF ++ data) = H ++ FB ++ CF ++ data := by
      simp [List.append_assoc]
    rw [hb] at h0
    exact h0
  have hfiles : parseFileEntries (H ++ FB ++ CF ++ data) co fileItems.length =
      some (fileItems.map (fun x => (x.2.1, x.2.2))) := by
    have h0 := parseFileEntries_flatten fileItems data h16 hidx hnz (H ++ FB)
    have hlen2 : (H ++ FB).length = co := by
      rw [List.length_append, hH, hFBdef,
        recs_flatten_length 0 folderRecs hfr8 hfrc, hco]
    rw [hlen2] at h0
    have hb : H ++ FB ++ CF ++ data = (H ++ FB) ++ CF ++ data := by
      simp [List.append_assoc]
    rw [hb]
    exact h0
  unfold parse_cab_layout
  rw [if_pos h36, if_pos hsig]
  simp only [hoffeq, hnfold, hnfile, hflags, hsidv]
  have htb : Nat.testBit 0 2 = false := by decide
  rw [htb]
  simp only [Bool.false_eq_true, if_false]
  rw [hfold, hfiles]

/-- Re-parsing an assembled cabinet with CE reserved areas (flags 0x0004,
header-reserve block, per-folder reserves) recovers the layout. -/
theorem parse_assembled_reserve (cabSize co sid cbh cbf cbd : Nat)
    (hres : List Nat) (folderRecs : List (List Nat × List Nat))
    (fileItems : List (List Nat × PyStr × Nat)) (data : List Nat)
    (hsid : sid < 65536) (hcbh : cbh < 65536) (hcbf : cbf < 256)
    (hcbd : cbd < 256) (hhr : hres.length = cbh)
    (hfr8 : ∀ q ∈ folderRecs, q.1.length = 8)
    (hfrc : ∀ q ∈ folderRecs, q.2.length = cbf)
    (hfc : folderRecs.length < 65536) (hfl : fileItems.length < 65536)
    (h16 : ∀ q ∈ fileItems, q.1.length = 16)
    (hidx : ∀ q ∈ fileItems, leVal (readN q.1 8 2) = q.2.2)
    (hnz : ∀ q ∈ fileItems, ∀ ch ∈ q.2.1, (ch == 0) = false)
    (hco : co = 40 + cbh + folderRecs.length * (8 + cbf))
    (hco32 : co < 4294967296) :
    parse_cab_layout
        (packCFHeader cabSize co folderRecs.length fileItems.length 4 sid ++
          (u16le cbh ++ [cbf % 256, cbd % 256] ++ hres) ++
          (folderRecs.map (fun q => q.1 ++ q.2)).flatten ++
          (fileItems.map (fun x => x.1 ++ (x.2.1 ++ [0]))).flatten ++ data) =
      some { set_id := sid, cb_cfheader := cbh, cb_cffolder := cbf,
             cb_cfdata := cbd, header_reserve := hres,
             folder_reserves := folderRecs.map Prod.snd,
             file_order := (fileItems.map (fun x => (x.2.1, x.2.2))).map Prod.fst,
             file_folders := (fileItems.map (fun x => (x.2.1, x.2.2))).foldl
               (fun m e => assocSet m e.1 e.2) [] } := by
  have hH : (packCFHeader cabSize co folderRecs.length fileItems.length 4 sid).length = 36 :=
    packCFHeader_length cabSize co folderRecs.length fileItems.length 4 sid
  set H := packCFHeader cabSize co folderRecs.length fileItems.length 4 sid with hHdef
  set RP := u16le cbh ++ [cbf % 256, cbd % 256] ++ hres with hRPdef
  set FB := (folderRecs.map (fun q => q.1 ++ q.2)).flatten with hFBdef
  set CF := (fileItems.map (fun x => x.1 ++ (x.2.1 ++ [0]))).flatten with hCFdef
  have hRPlen : RP.length = 4 + cbh := by
    rw [hRPdef]
    simp only [List.length_append, u16le_length, List.length_cons, List.length_nil, hhr]
  have hassoc : H ++ RP ++ FB ++ CF ++ data = H ++ (RP ++ (FB ++ (CF ++ data))) := by
    simp [List.append_assoc]
  have hRPassoc : RP = u16le cbh ++ ([cbf % 256, cbd % 256] ++ hres) := by
    rw [hRPdef]
    simp [List.append_assoc]
  have h36 : 36 ≤ (H ++ RP ++ FB ++ CF ++ data).length := by
    simp only [List.length_append, hH]
    omega
  have h40 : 36 + 4 ≤ (H ++ RP ++ FB ++ CF ++ data).length := by
    simp only [List.length_append, hH, hRPlen]
    omega
  have hsig : readN (H ++ RP ++ FB ++ CF ++ data) 0 4 = [77, 83, 67, 70] := by
    rw [hassoc, readN_left _ _ 0 4 (by omega)]
    exact packCFHeader_sig cabSize co folderRecs.length fileItems.length 4 sid
  have hoffeq : leVal (readN (H ++ RP ++ FB ++ CF ++ data) 16 4) = co := by
    rw [hassoc, readN_left _ _ 16 4 (by omega),
      packCFHeader_coff cabSize co folderRecs.length fileItems.length 4 sid,
      leVal_u32le co hco32]
  have hnfold : leVal (readN (H ++ RP ++ FB ++ CF ++ data) 26 2) = folderRecs.length := by
    rw [hassoc, readN_left _ _ 26 2 (by omega),
      packCFHeader_nfold cabSize co folderRecs.length fileItems.length 4 sid,
      leVal_u16le _ hfc]
  have hnfile : leVal (readN (H ++ RP ++ FB ++ CF ++ data) 28 2) = fileItems.length := by
    rw [hassoc, readN_left _ _ 28 2 (by omega),
      packCFHeader_nfile cabSize co folderRecs.length fileItems.length 4 sid,
      leVal_u16le _ hfl]
  have hflags : leVal (readN (H ++ RP ++ FB ++ CF ++ data) 30 2) = 4 := by
    rw [hassoc, readN_left _ _ 30 2 (by omega),
      packCFHeader_flags cabSize co folderRecs.length fileItems.length 4 sid,
      leVal_u16le 4 (by omega)]
  have hsidv : leVal (readN (H ++ RP ++ FB ++ CF ++ data) 32 2) = sid := by
    rw [hassoc, readN_left _ _ 32 2 (by omega),
      packCFHeader_setid cabSize co folderRecs.length fileItems.length 4 sid,
      leVal_u16le sid hsid]
  have hcbhv : leVal (readN (H ++ RP ++ FB ++ CF ++ data) 36 2) = cbh := by
    rw [hassoc, show (36 : Nat) = H.length from hH.symm, readN_append_zero]
    have ht1 : (RP ++ (FB ++ (CF ++ data))).take 2 = RP.take 2 :=
      take_append_of_le RP (FB ++ (CF ++ data)) 2 (by omega)
    have ht2 : RP.take 2 = u16le cbh := by
      rw [hRPassoc, take_append_of_le _ _ 2 (by simp [u16le_length]),
        show (2 : Nat) = (u16le cbh).length from (u16le_length cbh).symm,
        List.take_length]
    rw [ht1, ht2, leVal_u16le cbh hcbh]
  have hb5 : H ++ RP ++ FB ++ CF ++ data =
      H ++ (u16le cbh ++ ([cbf % 256, cbd % 256] ++
        (hres ++ (FB ++ (CF ++ data))))) := by
    rw [hRPdef]
    simp [List.append_assoc]
  have hcbfv : leVal (readN (H ++ RP ++ FB ++ CF ++ data) 38 1) = cbf := by
    rw [hb5, show (38 : Nat) = H.length + 2 from by omega, readN_append]
    rw [show (2 : Nat) = (u16le cbh).length + 0 from by simp [u16le_length],
      readN_append]
    have ht : readN ([cbf % 256, cbd % 256] ++ (hres ++ (FB ++ (CF ++ data)))) 0 1 =
        [cbf % 256] := rfl
    rw [ht, leVal_one, Nat.mod_eq_of_lt hcbf]
  have hcbdv : leVal (readN (H ++ RP ++ FB ++ CF ++ data) 39 1) = cbd := by
    rw [hb5, show (39 : Nat) = H.length + 3 from by omega, readN_append]
    rw [show (3 : Nat) = (u16le cbh).length + 1 from by simp [u16le_length],
      readN_append]
    have ht : readN ([cbf % 256, cbd % 256] ++ (hres ++ (FB ++ (CF ++ data)))) 1 1 =
        [cbd % 256] := rfl
    rw [ht, leVal_one, Nat.mod_eq_of_lt hcbd]
  have hresv : readN (H ++ RP ++ FB ++ CF ++ data) 40 cbh = hres := by
    rw [hb5, show (40 : Nat) = H.length + 4 from by omega, readN_append]
    rw [show (4 : Nat) = (u16le cbh).length + 2 from by simp [u16le_length],
      readN_append]
    have ht : readN ([cbf % 256, cbd % 256] ++ (hres ++ (FB ++ (CF ++ data)))) 2 cbh =
        (hres ++ (FB ++ (CF ++ data))).take cbh := rfl
    rw [ht, take_append_of_le _ _ cbh (by omega), ← hhr, List.take_length]
  have hfold : parseFolderReserves (H ++ RP ++ FB ++ CF ++ data) (40 + cbh)
      folderRecs.length cbf =
      some (folderRecs.map Prod.snd, 40 + cbh + folderRecs.length * (8 + cbf)) := by
    have h0 := parseFolderReserves_flatten cbf folderRecs (CF ++ data) hfr8 hfrc (H ++ RP)
    have hlen2 : (H ++ RP).length = 40 + cbh := by
      rw [List.length_append, hH, hRPlen]
      omega
    rw [hlen2] at h0
    have hb : (H ++ RP) ++ FB ++ (CF ++ data) = H ++ RP ++ FB ++ CF ++ data := by
      simp [List.append_assoc]
    rw [hb] at h0
    exact h0
  have hfiles : parseFileEntries (H ++ RP ++ FB ++ CF ++ data) co fileItems.length =
      some (fileItems.map (fun x => (x.2.1, x.2.2))) := by
    have h0 := parseFileEntries_flatten fileItems data h16 hidx hnz (H ++ RP ++ FB)
    have hlen2 : (H ++ RP ++ FB).length = co := by
      rw [List.length_append, List.length_append, hH, hRPlen, hFBdef,
        recs_flatten_length cbf folderRecs hfr8 hfrc, hco]
      omega
    rw [hlen2] at h0
    have hb : H ++ RP ++ FB ++ CF ++ data = (H ++ RP ++ FB) ++ CF ++ data := by
      simp [List.append_assoc]
    rw [hb]
    exact h0
  unfold parse_cab_layout
  rw [if_pos h36, if_pos hsig]
  simp only [hoffeq, hnfold, hnfile, hflags, hsidv]
  have htb : Nat.testBit 4 2 = true := by decide
  rw [htb]
  simp only [if_true]
  rw [if_pos h40]
  simp only [hcbhv, hcbfv, hcbdv, hresv]
  rw [hfold, hfiles]

/-- Structure of the built folder list when every name carries a template
key: folder keys are duplicate-free, and each name resolves through the
folder-index table to the position of the unique folder holding it, whose
key is the name's template key. -/
theorem folders_structure (defl : List Nat → List Nat) (A : CabArchive)
    (T : CabLayoutTemplate) (c : Bool)
    (hkf : ∀ n ∈ T.file_order, (assocGet T.file_folders n).isSome = true) :
    ((build_folders defl A T.file_order T c).map (fun f => f.folder_key)).Nodup ∧
    (∀ n ∈ T.file_order,
      ∃ i, ∃ hi : i < (build_folders defl A T.file_order T c).length,
        assocGet (folderIndexByName (build_folders defl A T.file_order T c)) n =
          some i ∧
        ((build_folders defl A T.file_order T c).get ⟨i, hi⟩).folder_key =
          (assocGet T.file_folders n).getD 0) := by
  have hbk := buildKeyed_eq_kfold T T.file_order hkf
  obtain ⟨hGn, hGc, _, hGall⟩ :=
    kfold_invs (fun n => (assocGet T.file_folders n).getD 0) T.file_order []
      (by simp) (by simp)
  have hfkn := build_folders_key_names defl A T.file_order T c
  rw [hbk] at hfkn
  have hkeys2 : (build_folders defl A T.file_order T c).map (fun f => f.folder_key) =
      (T.file_order.foldl
        (fun g n => keyedInsert g ((assocGet T.file_folders n).getD 0) n) []).map
        Prod.fst := by
    rw [← hfkn, List.map_map]
    rfl
  have hnodup : ((build_folders defl A T.file_order T c).map
      (fun f => f.folder_key)).Nodup := by
    rw [hkeys2]
    exact hGn
  have hFc : ∀ f ∈ build_folders defl A T.file_order T c, ∀ m ∈ f.names,
      (assocGet T.file_folders m).getD 0 = f.folder_key := by
    intro f hf m hm
    have hpair : (f.folder_key, f.names) ∈
        T.file_order.foldl
          (fun g n => keyedInsert g ((assocGet T.file_folders n).getD 0) n) [] := by
      rw [← hfkn]
      exact List.mem_map_of_mem _ hf
    exact hGc _ hpair m hm
  have hFall : ∀ n ∈ T.file_order,
      ∃ f ∈ build_folders defl A T.file_order T c, n ∈ f.names := by
    intro n hn
    obtain ⟨p, hp, hnp⟩ := hGall n hn
    rw [← hfkn] at hp
    obtain ⟨f, hf, hpf⟩ := List.mem_map.mp hp
    refine ⟨f, hf, ?_⟩
    have : f.names = p.2 := by rw [← hpf]
    rw [this]
    exact hnp
  refine ⟨hnodup, ?_⟩
  intro n hn
  obtain ⟨f, hf, hnf⟩ := hFall n hn
  obtain ⟨i, hgi⟩ := List.mem_iff_get.mp hf
  refine ⟨i.1, i.2, ?_, ?_⟩
  · have huniq : ∀ j (hj : j < (build_folders defl A T.file_order T c).length),
        j ≠ i.1 → n ∉ ((build_folders defl A T.file_order T c).get ⟨j, hj⟩).names := by
      intro j hj hji hmem
      have hk1 : (assocGet T.file_folders n).getD 0 =
          ((build_folders defl A T.file_order T c).get ⟨j, hj⟩).folder_key :=
        hFc _ (List.get_mem _ _ _) n hmem
      have hk2 : (assocGet T.file_folders n).getD 0 = f.folder_key :=
        hFc f hf n hnf
      have hmg : ((build_folders defl A T.file_order T c).map
          (fun f => f.folder_key)).get ⟨j, by simpa using hj⟩ =
          ((build_folders defl A T.file_order T c).map
            (fun f => f.folder_key)).get ⟨i.1, by simpa using i.2⟩ := by
        rw [List.get_map, List.get_map]
        rw [← hk1, hk2, ← hgi]
      have := (List.Nodup.get_inj_iff hnodup).mp hmg
      exact hji (by simpa using congrArg Fin.val this)
    have hm2 : n ∈ ((build_folders defl A T.file_order T c).get ⟨i.1, i.2⟩).names := by
      rw [hgi]
      exact hnf
    have h0 := fibn_unique n (build_folders defl A T.file_order T c) 0 i.1 i.2
      hm2 huniq
    have hfib : folderIndexByName (build_folders defl A T.file_order T c) =
        ((List.enumFrom 0 (build_folders defl A T.file_order T c)).map
          (fun p => p.2.names.map (fun m => (m, p.1)))).flatten := rfl
    rw [hfib, h0]
    simp
  · rw [hgi]
    exact (hFc f hf n hnf).symm

/-- `_build_cffile_blob` over byte-clean names without stored win32 names is
a flat list of records: 16 fixed bytes, the name, a NUL. -/
theorem build_cffile_blob_items (A : CabArchive) (ordered : List PyStr)
    (offsets fidxTab : List (PyStr × Nat))
    (hfn : ∀ n ∈ ordered, (A.getF n).fname32 = none)
    (hnb : ∀ n ∈ ordered, ∀ b ∈ n, b ≠ 0 ∧ b < 256) :
    build_cffile_blob A ordered offsets fidxTab =
      ((ordered.map (fun n =>
        (u32le (A.getF n).buf.length ++ u32le ((assocGet offsets n).getD 0) ++
          u16le ((assocGet fidxTab n).getD 0) ++ u16le (A.getF n).dateEnc ++
          u16le (A.getF n).timeEnc ++ u16le (A.getF n).attrEnc,
         n, (assocGet fidxTab n).getD 0))).map
        (fun x => x.1 ++ (x.2.1 ++ [0]))).flatten := by
  unfold build_cffile_blob
  rw [List.map_map]
  congr 1
  apply List.map_congr_left
  intro n hn
  have h1 : (A.getF n).fname32 = none := hfn n hn
  have h2 : encodeL1 n = n := encodeL1_eq_self n (fun b hb => (hnb n hn b hb).2)
  simp only [Function.comp]
  rw [h1]
  simp only [Option.getD_none]
  rw [h2]
  simp [List.append_assoc]

/-- The CFFILE records of the previous lemma satisfy the re-parse
obligations: fixed length 16, folder index at bytes 8-9, zero-free names. -/
theorem cffile_items_props (A : CabArchive) (ordered : List PyStr)
    (offsets fidxTab : List (PyStr × Nat))
    (hnb : ∀ n ∈ ordered, ∀ b ∈ n, b ≠ 0 ∧ b < 256)
    (hbound : ∀ n ∈ ordered, (assocGet fidxTab n).getD 0 < 65536) :
    (∀ q ∈ ordered.map (fun n =>
        (u32le (A.getF n).buf.length ++ u32le ((assocGet offsets n).getD 0) ++
          u16le ((assocGet fidxTab n).getD 0) ++ u16le (A.getF n).dateEnc ++
          u16le (A.getF n).timeEnc ++ u16le (A.getF n).attrEnc,
         n, (assocGet fidxTab n).getD 0)), q.1.length = 16) ∧
    (∀ q ∈ ordered.map (fun n =>
        (u32le (A.getF n).buf.length ++ u32le ((assocGet offsets n).getD 0) ++
          u16le ((assocGet fidxTab n).getD 0) ++ u16le (A.getF n).dateEnc ++
          u16le (A.getF n).timeEnc ++ u16le (A.getF n).attrEnc,
         n, (assocGet fidxTab n).getD 0)), leVal (readN q.1 8 2) = q.2.2) ∧
    (∀ q ∈ ordered.map (fun n =>
        (u32le (A.getF n).buf.length ++ u32le ((assocGet offsets n).getD 0) ++
          u16le ((assocGet fidxTab n).getD 0) ++ u16le (A.getF n).dateEnc ++
          u16le (A.getF n).timeEnc ++ u16le (A.getF n).attrEnc,
         n, (assocGet fidxTab n).getD 0)), ∀ ch ∈ q.2.1, (ch == 0) = false) := by
  refine ⟨?_, ?_, ?_⟩
  · intro q hq
    obtain ⟨n, _, hqe⟩ := List.mem_map.mp hq
    rw [← hqe]
    simp only [List.length_append, u32le_length, u16le_length]
  · intro q hq
    obtain ⟨n, hn, hqe⟩ := List.mem_map.mp hq
    rw [← hqe]
    dsimp only
    have hassoc : u32le (A.getF n).buf.length ++ u32le ((assocGet offsets n).getD 0) ++
        u16le ((assocGet fidxTab n).getD 0) ++ u16le (A.getF n).dateEnc ++
        u16le (A.getF n).timeEnc ++ u16le (A.getF n).attrEnc =
        u32le (A.getF n).buf.length ++ (u32le ((assocGet offsets n).getD 0) ++
          (u16le ((assocGet fidxTab n).getD 0) ++ (u16le (A.getF n).dateEnc ++
            (u16le (A.getF n).timeEnc ++ u16le (A.getF n).attrEnc)))) := by
      simp [List.append_assoc]
    rw [hassoc]
    rw [show (8 : Nat) = (u32le (A.getF n).buf.length).length + 4 from by
      simp [u32le_length], readN_append]
    rw [show (4 : Nat) = (u32le ((assocGet offsets n).getD 0)).length + 0 from by
      simp [u32le_length], readN_append]
    have ht : readN (u16le ((assocGet fidxTab n).getD 0) ++
        (u16le (A.getF n).dateEnc ++ (u16le (A.getF n).timeEnc ++
          u16le (A.getF n).attrEnc))) 0 2 = u16le ((assocGet fidxTab n).getD 0) := by
      unfold readN
      rw [List.drop_zero, take_append_of_le _ _ 2 (by simp [u16le_length]),
        show (2 : Nat) = (u16le ((assocGet fidxTab n).getD 0)).length from
          (u16le_length _).symm, List.take_length]
    rw [ht, leVal_u16le _ (hbound n hn)]
  · intro q hq
    obtain ⟨n, hn, hqe⟩ := List.mem_map.mp hq
    rw [← hqe]
    intro ch hch
    have := (hnb n hn ch hch).1
    simp [this]

/-- With per-folder reserves of the exact CFFOLDER width, the emitted
reserve-or-empty field is just the folder's reserve. -/
theorem recsnd_eq_reserves (cbf : Nat) (folders : List FolderBuild)
    (hlen : ∀ f ∈ folders, f.reserve.length = cbf) :
    folders.map (fun f => if cbf ≠ 0 then f.reserve else []) =
      folders.map FolderBuild.reserve := by
  apply List.map_congr_left
  intro f hf
  by_cases h0 : cbf = 0
  · rw [if_neg (by simp [h0])]
    have := hlen f hf
    rw [h0] at this
    exact (List.length_eq_zero.mp this).symm
  · rw [if_pos h0]

/-- A folder keyed inside the template's reserve table, whose stored reserve
already has the CFFOLDER width, keeps that reserve verbatim. -/
theorem build_folders_reserve_of_template (defl : List Nat → List Nat)
    (A : CabArchive) (ordered : List PyStr) (T : CabLayoutTemplate) (c : Bool) :
    ∀ f ∈ build_folders defl A ordered T c,
      f.folder_key < T.folder_reserves.length →
      (T.folder_reserves.getD f.folder_key []).length = T.cb_cffolder →
      f.reserve = T.folder_reserves.getD f.folder_key [] := by
  intro f hf h1 h2
  unfold build_folders at hf
  obtain ⟨kv, _, hfe⟩ := List.mem_map.mp hf
  subst hfe
  dsimp only at h1 h2 ⊢
  rw [if_pos h1, if_neg (by omega), ← h2, List.take_length]

/-- The built folder count is bounded by the ordered-name count. -/
theorem build_folders_length_le (defl : List Nat → List Nat) (A : CabArchive)
    (T : CabLayoutTemplate) (c : Bool)
    (hkf : ∀ n ∈ T.file_order, (assocGet T.file_folders n).isSome = true) :
    (build_folders defl A T.file_order T c).length ≤ T.file_order.length := by
  have hfkn := build_folders_key_names defl A T.file_order T c
  have hlen : (build_folders defl A T.file_order T c).length =
      (buildKeyed T T.file_order).length := by
    rw [← hfkn, List.length_map]
  rw [hlen, buildKeyed_eq_kfold T T.file_order hkf]
  have := (kfold_length (fun n => (assocGet T.file_folders n).getD 0)
    T.file_order []).2
  simpa using this

/-- A nonempty ordered-name list yields at least one folder. -/
theorem build_folders_length_pos (defl : List Nat → List Nat) (A : CabArchive)
    (T : CabLayoutTemplate) (c : Bool) (hne : T.file_order ≠ [])
    (hkf : ∀ n ∈ T.file_order, (assocGet T.file_folders n).isSome = true) :
    0 < (build_folders defl A T.file_order T c).length := by
  have hfkn := build_folders_key_names defl A T.file_order T c
  have hlen : (build_folders defl A T.file_order T c).length =
      (buildKeyed T T.file_order).length := by
    rw [← hfkn, List.length_map]
  rw [hlen, buildKeyed_eq_kfold T T.file_order hkf]
  obtain ⟨n0, l0, hcons⟩ := List.exists_cons_of_ne_nil hne
  rw [hcons]
  exact kfold_pos (fun n => (assocGet T.file_folders n).getD 0) n0 l0 []

/-- The writer applied to an unchanged archive under a parse-produced
template, reduced to its ok-value: header, reserve area, CFFOLDER block,
CFFILE block, data block. -/
theorem build_ce_value (defl : List Nat → List Nat)
    (setEnum : List PyStr → List PyStr) (A : CabArchive) (T : CabLayoutTemplate)
    (c sort : Bool)
    (horder : order_names setEnum A.keys (some T) sort = T.file_order)
    (hone : T.file_order.isEmpty = false)
    (hfne : ¬ (build_folders defl A T.file_order T c).length = 0) :
    build_ce_cab_bytes defl setEnum A c (some T) sort =
      .ok (packCFHeader
            ((36 + if (T.cb_cfheader != 0 || T.cb_cffolder != 0 || T.cb_cfdata != 0 ||
                !T.header_reserve.isEmpty) = true then 4 + T.cb_cfheader else 0) +
              (build_folder_and_data_blobs (build_folders defl A T.file_order T c)
                ((36 + if (T.cb_cfheader != 0 || T.cb_cffolder != 0 || T.cb_cfdata != 0 ||
                    !T.header_reserve.isEmpty) = true then 4 + T.cb_cfheader else 0) +
                  (build_folders defl A T.file_order T c).length * (8 + T.cb_cffolder) +
                  (build_cffile_blob A T.file_order
                    (build_uncompressed_offsets A (build_folders defl A T.file_order T c))
                    (folderIndexByName (build_folders defl A T.file_order T c))).length)
                T.cb_cffolder T.cb_cfdata c).1.length +
              (build_cffile_blob A T.file_order
                (build_uncompressed_offsets A (build_folders defl A T.file_order T c))
                (folderIndexByName (build_folders defl A T.file_order T c))).length +
              (build_folder_and_data_blobs (build_folders defl A T.file_order T c)
                ((36 + if (T.cb_cfheader != 0 || T.cb_cffolder != 0 || T.cb_cfdata != 0 ||
                    !T.header_reserve.isEmpty) = true then 4 + T.cb_cfheader else 0) +
                  (build_folders defl A T.file_order T c).length * (8 + T.cb_cffolder) +
                  (build_cffile_blob A T.file_order
                    (build_uncompressed_offsets A (build_folders defl A T.file_order T c))
                    (folderIndexByName (build_folders defl A T.file_order T c))).length)
                T.cb_cffolder T.cb_cfdata c).2.length)
            ((36 + if (T.cb_cfheader != 0 || T.cb_cffolder != 0 || T.cb_cfdata != 0 ||
                !T.header_reserve.isEmpty) = true then 4 + T.cb_cfheader else 0) +
              (build_folders defl A T.file_order T c).length * (8 + T.cb_cffolder))
            (build_folders defl A T.file_order T c).length T.file_order.length
            (if (T.cb_cfheader != 0 || T.cb_cffolder != 0 || T.cb_cfdata != 0 ||
                !T.header_reserve.isEmpty) = true then 4 else 0)
            T.set_id ++
          (if (T.cb_cfheader != 0 || T.cb_cffolder != 0 || T.cb_cfdata != 0 ||
              !T.header_reserve.isEmpty) = true then
            u16le T.cb_cfheader ++ [T.cb_cffolder % 256, T.cb_cfdata % 256] ++
              (List.take T.cb_cfheader T.header_reserve ++
                List.replicate
                  (T.cb_cfheader - (List.take T.cb_cfheader T.header_reserve).length) 0)
          else []) ++
          (build_folder_and_data_blobs (build_folders defl A T.file_order T c)
            ((36 + if (T.cb_cfheader != 0 || T.cb_cffolder != 0 || T.cb_cfdata != 0 ||
                !T.header_reserve.isEmpty) = true then 4 + T.cb_cfheader else 0) +
              (build_folders defl A T.file_order T c).length * (8 + T.cb_cffolder) +
              (build_cffile_blob A T.file_order
                (build_uncompressed_offsets A (build_folders defl A T.file_order T c))
                (folderIndexByName (build_folders defl A T.file_order T c))).length)
            T.cb_cffolder T.cb_cfdata c).1 ++
          build_cffile_blob A T.file_order
            (build_uncompressed_offsets A (build_folders defl A T.file_order T c))
            (folderIndexByName (build_folders defl A T.file_order T c)) ++
          (build_folder_and_data_blobs (build_folders defl A T.file_order T c)
            ((36 + if (T.cb_cfheader != 0 || T.cb_cffolder != 0 || T.cb_cfdata != 0 ||
                !T.header_reserve.isEmpty) = true then 4 + T.cb_cfheader else 0) +
              (build_folders defl A T.file_order T c).length * (8 + T.cb_cffolder) +
              (build_cffile_blob A T.file_order
                (build_uncompressed_offsets A (build_folders defl A T.file_order T c))
                (folderIndexByName (build_folders defl A T.file_order T c))).length)
            T.cb_cffolder T.cb_cfdata c).2) := by
  unfold build_ce_cab_bytes
  simp only [horder, hone, Bool.false_eq_true, if_false, Option.getD_some]
  rw [if_neg hfne]

set_option maxHeartbeats 12000000 in
/-- C4 (amended): writing an unchanged parsed archive back under its
captured template and re-parsing preserves the set id, the reserve sizes,
the header reserve bytes and the file ordering; the re-parsed per-folder
reserves are exactly those of the folders the writer emits (folders that
receive files), each keeping the template's reserve for its key verbatim
when that reserve has the CFFOLDER width; and names keep their folder
grouping. -/
theorem C4_roundtrip_preserves_layout
    (defl : List Nat → List Nat) (setEnum : List PyStr → List PyStr)
    (A : CabArchive) (T : CabLayoutTemplate) (c sort : Bool)
    (hkeys : A.keys = T.file_order)
    (hnd : T.file_order.Nodup)
    (hne : T.file_order ≠ [])
    (hse : setEnum [] = [])
    (hfn : ∀ n ∈ T.file_order, (A.getF n).fname32 = none)
    (hnb : ∀ n ∈ T.file_order, ∀ b ∈ n, b ≠ 0 ∧ b < 256)
    (hkf : ∀ n ∈ T.file_order, (assocGet T.file_folders n).isSome = true)
    (hcbh : T.cb_cfheader < 65536) (hcbf : T.cb_cffolder < 256)
    (hcbd : T.cb_cfdata < 256) (hsid : T.set_id < 65536)
    (hhr : T.header_reserve.length = T.cb_cfheader)
    (hnfl : T.file_order.length < 65536) :
    ∃ T2 : CabLayoutTemplate,
      (build_ce_cab_bytes defl setEnum A c (some T) sort).toOption.bind
        parse_cab_layout = some T2 ∧
      T2.set_id = T.set_id ∧
      T2.cb_cfheader = T.cb_cfheader ∧
      T2.cb_cffolder = T.cb_cffolder ∧
      T2.cb_cfdata = T.cb_cfdata ∧
      T2.header_reserve = T.header_reserve ∧
      T2.file_order = T.file_order ∧
      T2.folder_reserves =
        (build_folders defl A T.file_order T c).map FolderBuild.reserve ∧
      (∀ f ∈ build_folders defl A T.file_order T c,
        f.folder_key < T.folder_reserves.length →
        (T.folder_reserves.getD f.folder_key []).length = T.cb_cffolder →
        f.reserve = T.folder_reserves.getD f.folder_key []) ∧
      (∀ n1 ∈ T.file_order, ∀ n2 ∈ T.file_order,
        (assocGet T2.file_folders n1 = assocGet T2.file_folders n2 ↔
          assocGet T.file_folders n1 = assocGet T.file_folders n2)) := by
  have horder : order_names setEnum A.keys (some T) sort = T.file_order := by
    rw [hkeys]
    exact order_names_self setEnum T sort hnd hse
  have hone : T.file_order.isEmpty = false := by
    cases hfo2 : T.file_order
    · exact absurd hfo2 hne
    · rfl
  have hFpos := build_folders_length_pos defl A T c hne hkf
  have hFle := build_folders_length_le defl A T c hkf
  have hFne0 : ¬ (build_folders defl A T.file_order T c).length = 0 := by omega
  have hFlt : (build_folders defl A T.file_order T c).length < 65536 := by omega
  have hFres := build_folders_reserve_length defl A T.file_order T c
  obtain ⟨hFkNodup, hFidx⟩ := folders_structure defl A T c hkf
  have hbound : ∀ n ∈ T.file_order,
      (assocGet (folderIndexByName (build_folders defl A T.file_order T c)) n).getD 0 <
        65536 := by
    intro n hn
    obtain ⟨i, hi, hv, _⟩ := hFidx n hn
    rw [hv]
    simp only [Option.getD_some]
    omega
  obtain ⟨h16, hidxp, hnzp⟩ := cffile_items_props A T.file_order
    (build_uncompressed_offsets A (build_folders defl A T.file_order T c))
    (folderIndexByName (build_folders defl A T.file_order T c)) hnb hbound
  have hCFeq := build_cffile_blob_items A T.file_order
    (build_uncompressed_offsets A (build_folders defl A T.file_order T c))
    (folderIndexByName (build_folders defl A T.file_order T c)) hfn hnb
  have hilen : (T.file_order.map (fun n =>
      (u32le (A.getF n).buf.length ++
        u32le ((assocGet (build_uncompressed_offsets A
          (build_folders defl A T.file_order T c)) n).getD 0) ++
        u16le ((assocGet (folderIndexByName
          (build_folders defl A T.file_order T c)) n).getD 0) ++
        u16le (A.getF n).dateEnc ++ u16le (A.getF n).timeEnc ++
        u16le (A.getF n).attrEnc,
       n, (assocGet (folderIndexByName
         (build_folders defl A T.file_order T c)) n).getD 0))).length =
      T.file_order.length := List.length_map _ _
  have hpairs2 : (T.file_order.map (fun n =>
      (u32le (A.getF n).buf.length ++
        u32le ((assocGet (build_uncompressed_offsets A
          (build_folders defl A T.file_order T c)) n).getD 0) ++
        u16le ((assocGet (folderIndexByName
          (build_folders defl A T.file_order T c)) n).getD 0) ++
        u16le (A.getF n).dateEnc ++ u16le (A.getF n).timeEnc ++
        u16le (A.getF n).attrEnc,
       n, (assocGet (folderIndexByName
         (build_folders defl A T.file_order T c)) n).getD 0))).map
        (fun x => (x.2.1, x.2.2)) =
      T.file_order.map (fun n =>
        (n, (assocGet (folderIndexByName
          (build_folders defl A T.file_order T c)) n).getD 0)) := by
    rw [List.map_map]
    apply List.map_congr_left
    intro n _
    rfl
  have hpairsfst : ((T.file_order.map (fun n =>
      (u32le (A.getF n).buf.length ++
        u32le ((assocGet (build_uncompressed_offsets A
          (build_folders defl A T.file_order T c)) n).getD 0) ++
        u16le ((assocGet (folderIndexByName
          (build_folders defl A T.file_order T c)) n).getD 0) ++
        u16le (A.getF n).dateEnc ++ u16le (A.getF n).timeEnc ++
        u16le (A.getF n).attrEnc,
       n, (assocGet (folderIndexByName
         (build_folders defl A T.file_order T c)) n).getD 0))).map
        (fun x => (x.2.1, x.2.2))).map Prod.fst = T.file_order := by
    rw [hpairs2, List.map_map]
    conv_rhs => rw [← List.map_id T.file_order]
    apply List.map_congr_left
    intro n _
    rfl
  have hndpairs : ((T.file_order.map (fun n =>
      (n, (assocGet (folderIndexByName
        (build_folders defl A T.file_order T c)) n).getD 0))).map Prod.fst).Nodup := by
    have hmi : (T.file_order.map (fun n =>
        (n, (assocGet (folderIndexByName
          (build_folders defl A T.file_order T c)) n).getD 0))).map Prod.fst =
        T.file_order := by
      rw [List.map_map]
      conv_rhs => rw [← List.map_id T.file_order]
      apply List.map_congr_left
      intro n _
      rfl
    rw [hmi]
    exact hnd
  have hff : (T.file_order.map (fun n =>
      (n, (assocGet (folderIndexByName
        (build_folders defl A T.file_order T c)) n).getD 0))).foldl
      (fun m e => assocSet m e.1 e.2) [] =
      T.file_order.map (fun n =>
        (n, (assocGet (folderIndexByName
          (build_folders defl A T.file_order T c)) n).getD 0)) := by
    have h0 := foldl_assocSet_append (T.file_order.map (fun n =>
      (n, (assocGet (folderIndexByName
        (build_folders defl A T.file_order T c)) n).getD 0))) []
      (fun e _ => rfl) hndpairs
    simpa using h0
  have hsem : ∀ n ∈ T.file_order,
      assocGet (((T.file_order.map (fun n =>
        (u32le (A.getF n).buf.length ++
          u32le ((assocGet (build_uncompressed_offsets A
            (build_folders defl A T.file_order T c)) n).getD 0) ++
          u16le ((assocGet (folderIndexByName
            (build_folders defl A T.file_order T c)) n).getD 0) ++
          u16le (A.getF n).dateEnc ++ u16le (A.getF n).timeEnc ++
          u16le (A.getF n).attrEnc,
         n, (assocGet (folderIndexByName
           (build_folders defl A T.file_order T c)) n).getD 0))).map
          (fun x => (x.2.1, x.2.2))).foldl (fun m e => assocSet m e.1 e.2) []) n =
      some ((assocGet (folderIndexByName
        (build_folders defl A T.file_order T c)) n).getD 0) := by
    intro n hn
    rw [hpairs2, hff]
    exact assocGet_map_self _ T.file_order n hn
  have hgroup : ∀ n1 ∈ T.file_order, ∀ n2 ∈ T.file_order,
      (((assocGet (folderIndexByName
          (build_folders defl A T.file_order T c)) n1).getD 0 =
        (assocGet (folderIndexByName
          (build_folders defl A T.file_order T c)) n2).getD 0) ↔
        assocGet T.file_folders n1 = assocGet T.file_folders n2) := by
    intro n1 h1 n2 h2
    obtain ⟨i1, hi1, hv1, hk1⟩ := hFidx n1 h1
    obtain ⟨i2, hi2, hv2, hk2⟩ := hFidx n2 h2
    obtain ⟨k1, hk1s⟩ := Option.isSome_iff_exists.mp (hkf n1 h1)
    obtain ⟨k2, hk2s⟩ := Option.isSome_iff_exists.mp (hkf n2 h2)
    have hf1 : (assocGet (folderIndexByName
        (build_folders defl A T.file_order T c)) n1).getD 0 = i1 := by
      rw [hv1]
      rfl
    have hf2 : (assocGet (folderIndexByName
        (build_folders defl A T.file_order T c)) n2).getD 0 = i2 := by
      rw [hv2]
      rfl
    have e1 : ((build_folders defl A T.file_order T c).get ⟨i1, hi1⟩).folder_key = k1 := by
      rw [hk1, hk1s]
      rfl
    have e2 : ((build_folders defl A T.file_order T c).get ⟨i2, hi2⟩).folder_key = k2 := by
      rw [hk2, hk2s]
      rfl
    rw [hf1, hf2, hk1s, hk2s]
    constructor
    · intro hii
      have hfin : (⟨i1, hi1⟩ : Fin (build_folders defl A T.file_order T c).length) =
          ⟨i2, hi2⟩ := Fin.ext hii
      rw [Option.some.injEq]
      rw [← e1, ← e2, hfin]
    · intro hkk
      have hkk2 : k1 = k2 := Option.some.inj hkk
      have hmg : ((build_folders defl A T.file_order T c).map
          (fun f => f.folder_key)).get ⟨i1, by simpa using hi1⟩ =
          ((build_folders defl A T.file_order T c).map
            (fun f => f.folder_key)).get ⟨i2, by simpa using hi2⟩ := by
        rw [List.get_map, List.get_map, e1, e2, hkk2]
      have := (List.Nodup.get_inj_iff hFkNodup).mp hmg
      simpa using congrArg Fin.val this
  by_cases hu : ((T.cb_cfheader != 0) || (T.cb_cffolder != 0) || (T.cb_cfdata != 0) ||
      !T.header_reserve.isEmpty) = true
  · -- reserve path
    have hrp : List.take T.cb_cfheader T.header_reserve ++
        List.replicate
          (T.cb_cfheader - (List.take T.cb_cfheader T.header_reserve).length) 0 =
        T.header_reserve := by
      rw [← hhr, List.take_length]
      simp
    obtain ⟨recs, hB1, hBlen, hBfr8, hBsnd⟩ :=
      bfdb_recs T.cb_cffolder T.cb_cfdata c (build_folders defl A T.file_order T c)
        [] []
        (36 + (4 + T.cb_cfheader) +
          (build_folders defl A T.file_order T c).length * (8 + T.cb_cffolder) +
          ((T.file_order.map (fun n =>
            (u32le (A.getF n).buf.length ++
              u32le ((assocGet (build_uncompressed_offsets A
                (build_folders defl A T.file_order T c)) n).getD 0) ++
              u16le ((assocGet (folderIndexByName
                (build_folders defl A T.file_order T c)) n).getD 0) ++
              u16le (A.getF n).dateEnc ++ u16le (A.getF n).timeEnc ++
              u16le (A.getF n).attrEnc,
             n, (assocGet (folderIndexByName
               (build_folders defl A T.file_order T c)) n).getD 0))).map
            (fun x => x.1 ++ (x.2.1 ++ [0]))).flatten.length)
    have hBfrc : ∀ q ∈ recs, q.2.length = T.cb_cffolder := by
      intro q hq
      have hmem : q.2 ∈ recs.map Prod.snd := List.mem_map_of_mem Prod.snd hq
      rw [hBsnd] at hmem
      obtain ⟨f, hf, hq2⟩ := List.mem_map.mp hmem
      by_cases h0 : T.cb_cffolder = 0
      · rw [← hq2, if_neg (by simp [h0])]
        simp [h0]
      · rw [← hq2, if_pos h0]
        exact hFres f hf
    have hB1v : (build_folder_and_data_blobs (build_folders defl A T.file_order T c)
        (36 + (4 + T.cb_cfheader) +
          (build_folders defl A T.file_order T c).length * (8 + T.cb_cffolder) +
          ((T.file_order.map (fun n =>
            (u32le (A.getF n).buf.length ++
              u32le ((assocGet (build_uncompressed_offsets A
                (build_folders defl A T.file_order T c)) n).getD 0) ++
              u16le ((assocGet (folderIndexByName
                (build_folders defl A T.file_order T c)) n).getD 0) ++
              u16le (A.getF n).dateEnc ++ u16le (A.getF n).timeEnc ++
              u16le (A.getF n).attrEnc,
             n, (assocGet (folderIndexByName
               (build_folders defl A T.file_order T c)) n).getD 0))).map
            (fun x => x.1 ++ (x.2.1 ++ [0]))).flatten.length)
        T.cb_cffolder T.cb_cfdata c).1 =
        (recs.map (fun q => q.1 ++ q.2)).flatten := by
      unfold build_folder_and_data_blobs
      dsimp only
      rw [hB1]
      simp
    refine ⟨{
        set_id := T.set_id, cb_cfheader := T.cb_cfheader,
        cb_cffolder := T.cb_cffolder, cb_cfdata := T.cb_cfdata,
        header_reserve := T.header_reserve,
        folder_reserves := recs.map Prod.snd,
        file_order := ((T.file_order.map (fun n =>
          (u32le (A.getF n).buf.length ++
            u32le ((assocGet (build_uncompressed_offsets A
              (build_folders defl A T.file_order T c)) n).getD 0) ++
            u16le ((assocGet (folderIndexByName
              (build_folders defl A T.file_order T c)) n).getD 0) ++
            u16le (A.getF n).dateEnc ++ u16le (A.getF n).timeEnc ++
            u16le (A.getF n).attrEnc,
           n, (assocGet (folderIndexByName
             (build_folders defl A T.file_order T c)) n).getD 0))).map
          (fun x => (x.2.1, x.2.2))).map Prod.fst,
        file_folders := ((T.file_order.map (fun n =>
          (u32le (A.getF n).buf.length ++
            u32le ((assocGet (build_uncompressed_offsets A
              (build_folders defl A T.file_order T c)) n).getD 0) ++
            u16le ((assocGet (folderIndexByName
              (build_folders defl A T.file_order T c)) n).getD 0) ++
            u16le (A.getF n).dateEnc ++ u16le (A.getF n).timeEnc ++
            u16le (A.getF n).attrEnc,
           n, (assocGet (folderIndexByName
             (build_folders defl A T.file_order T c)) n).getD 0))).map
          (fun x => (x.2.1, x.2.2))).foldl (fun m e => assocSet m e.1 e.2) [] },
      ?_, rfl, rfl, rfl, rfl, rfl, ?_, ?_, ?_, ?_⟩
    · rw [build_ce_value defl setEnum A T c sort horder hone hFne0]
      simp only [hu, eq_self_iff_true, if_true]
      rw [hrp, hCFeq, hB1v, ← hBlen, ← hilen]
      exact parse_assembled_reserve _ _ T.set_id T.cb_cfheader T.cb_cffolder
        T.cb_cfdata T.header_reserve recs _ _ hsid hcbh hcbf hcbd hhr hBfr8 hBfrc
        (by omega) (by rw [hilen]; exact hnfl) h16 hidxp hnzp
        (by rw [hBlen]; generalize (build_folders defl A T.file_order T c).length *
          (8 + T.cb_cffolder) = P; omega)
        (by
          have hle : recs.length * (8 + T.cb_cffolder) ≤ 65535 * 263 :=
            Nat.mul_le_mul (by omega) (by omega)
          omega)
    · exact hpairsfst
    · rw [hBsnd]
      exact recsnd_eq_reserves T.cb_cffolder
        (build_folders defl A T.file_order T c) hFres
    · exact build_folders_reserve_of_template defl A T.file_order T c
    · intro n1 h1 n2 h2
      rw [hsem n1 h1, hsem n2 h2, Option.some.injEq]
      exact hgroup n1 h1 n2 h2
  · -- no-reserve path
    have hu2 : ((T.cb_cfheader != 0) || (T.cb_cffolder != 0) || (T.cb_cfdata != 0) ||
        !T.header_reserve.isEmpty) = false := by
      cases hb : ((T.cb_cfheader != 0) || (T.cb_cffolder != 0) || (T.cb_cfdata != 0) ||
        !T.header_reserve.isEmpty)
      · rfl
      · exact absurd hb hu
    have h01 : T.cb_cfheader = 0 := by
      simp only [Bool.or_eq_false_iff] at hu2
      simpa using hu2.1.1.1
    have h02 : T.cb_cffolder = 0 := by
      simp only [Bool.or_eq_false_iff] at hu2
      simpa using hu2.1.1.2
    have h03 : T.cb_cfdata = 0 := by
      simp only [Bool.or_eq_false_iff] at hu2
      simpa using hu2.1.2
    have h04 : T.header_reserve = [] := by
      simp only [Bool.or_eq_false_iff] at hu2
      have h := hu2.2
      cases hbb : T.header_reserve.isEmpty
      · rw [hbb] at h
        simp at h
      · exact List.isEmpty_iff.mp hbb
    obtain ⟨recs, hB1, hBlen, hBfr8, hBsnd⟩ :=
      bfdb_recs T.cb_cffolder T.cb_cfdata c (build_folders defl A T.file_order T c)
        [] []
        (36 + 0 +
          (build_folders defl A T.file_order T c).length * (8 + T.cb_cffolder) +
          ((T.file_order.map (fun n =>
            (u32le (A.getF n).buf.length ++
              u32le ((assocGet (build_uncompressed_offsets A
                (build_folders defl A T.file_order T c)) n).getD 0) ++
              u16le ((assocGet (folderIndexByName
                (build_folders defl A T.file_order T c)) n).getD 0) ++
              u16le (A.getF n).dateEnc ++ u16le (A.getF n).timeEnc ++
              u16le (A.getF n).attrEnc,
             n, (assocGet (folderIndexByName
               (build_folders defl A T.file_order T c)) n).getD 0))).map
            (fun x => x.1 ++ (x.2.1 ++ [0]))).flatten.length)
    have hBfrc : ∀ q ∈ recs, q.2.length = 0 := by
      intro q hq
      have hmem : q.2 ∈ recs.map Prod.snd := List.mem_map_of_mem Prod.snd hq
      rw [hBsnd] at hmem
      obtain ⟨f, hf, hq2⟩ := List.mem_map.mp hmem
      rw [← hq2, h02]
      simp
    have hB1v : (build_folder_and_data_blobs (build_folders defl A T.file_order T c)
        (36 + 0 +
          (build_folders defl A T.file_order T c).length * (8 + T.cb_cffolder) +
          ((T.file_order.map (fun n =>
            (u32le (A.getF n).buf.length ++
              u32le ((assocGet (build_uncompressed_offsets A
                (build_folders defl A T.file_order T c)) n).getD 0) ++
              u16le ((assocGet (folderIndexByName
                (build_folders defl A T.file_order T c)) n).getD 0) ++
              u16le (A.getF n).dateEnc ++ u16le (A.getF n).timeEnc ++
              u16le (A.getF n).attrEnc,
             n, (assocGet (folderIndexByName
               (build_folders defl A T.file_order T c)) n).getD 0))).map
            (fun x => x.1 ++ (x.2.1 ++ [0]))).flatten.length)
        T.cb_cffolder T.cb_cfdata c).1 =
        (recs.map (fun q => q.1 ++ q.2)).flatten := by
      unfold build_folder_and_data_blobs
      dsimp only
      rw [hB1]
      simp
    refine ⟨{
        set_id := T.set_id, cb_cfheader := 0,
        cb_cffolder := 0, cb_cfdata := 0,
        header_reserve := [],
        folder_reserves := recs.map Prod.snd,
        file_order := ((T.file_order.map (fun n =>
          (u32le (A.getF n).buf.length ++
            u32le ((assocGet (build_uncompressed_offsets A
              (build_folders defl A T.file_order T c)) n).getD 0) ++
            u16le ((assocGet (folderIndexByName
              (build_folders defl A T.file_order T c)) n).getD 0) ++
            u16le (A.getF n).dateEnc ++ u16le (A.getF n).timeEnc ++
            u16le (A.getF n).attrEnc,
           n, (assocGet (folderIndexByName
             (build_folders defl A T.file_order T c)) n).getD 0))).map
          (fun x => (x.2.1, x.2.2))).map Prod.fst,
        file_folders := ((T.file_order.map (fun n =>
          (u32le (A.getF n).buf.length ++
            u32le ((assocGet (build_uncompressed_offsets A
              (build_folders defl A T.file_order T c)) n).getD 0) ++
            u16le ((assocGet (folderIndexByName
              (build_folders defl A T.file_order T c)) n).getD 0) ++
            u16le (A.getF n).dateEnc ++ u16le (A.getF n).timeEnc ++
            u16le (A.getF n).attrEnc,
           n, (assocGet (folderIndexByName
             (build_folders defl A T.file_order T c)) n).getD 0))).map
          (fun x => (x.2.1, x.2.2))).foldl (fun m e => assocSet m e.1 e.2) [] },
      ?_, rfl, h01.symm, h02.symm, h03.symm, h04.symm, ?_, ?_, ?_, ?_⟩
    · rw [build_ce_value defl setEnum A T c sort horder hone hFne0]
      simp only [hu2, Bool.false_eq_true, if_false]
      rw [hCFeq, hB1v, ← hBlen, ← hilen, List.append_nil]
      exact parse_assembled_plain _ _ T.set_id recs _ _ hsid hBfr8 hBfrc
        (by omega) (by rw [hilen]; exact hnfl) h16 hidxp hnzp
        (by rw [hBlen, h02])
        (by
          have hle : recs.length * (8 + T.cb_cffolder) ≤ 65535 * 263 :=
            Nat.mul_le_mul (by omega) (by omega)
          omega)
    · exact hpairsfst
    · rw [hBsnd]
      exact recsnd_eq_reserves T.cb_cffolder
        (build_folders defl A T.file_order T c) hFres
    · exact build_folders_reserve_of_template defl A T.file_order T c
    · intro n1 h1 n2 h2
      rw [hsem n1 h1, hsem n2 h2, Option.some.injEq]
      exact hgroup n1 h1 n2 h2

/-- Witness for C4 at the parsed archive and template of the two-folder
example CAB. -/
theorem C4_roundtrip_preserves_layout_witness :
    exArchiveC4.keys = exTemplateC4.file_order ∧
    exTemplateC4.file_order.Nodup ∧
    exTemplateC4.file_order ≠ [] ∧
    (id : List PyStr → List PyStr) [] = [] ∧
    (∀ n ∈ exTemplateC4.file_order, (exArchiveC4.getF n).fname32 = none) ∧
    (∀ n ∈ exTemplateC4.file_order, ∀ b ∈ n, b ≠ 0 ∧ b < 256) ∧
    (∀ n ∈ exTemplateC4.file_order,
      (assocGet exTemplateC4.file_folders n).isSome = true) ∧
    exTemplateC4.cb_cfheader < 65536 ∧ exTemplateC4.cb_cffolder < 256 ∧
    exTemplateC4.cb_cfdata < 256 ∧ exTemplateC4.set_id < 65536 ∧
    exTemplateC4.header_reserve.length = exTemplateC4.cb_cfheader ∧
    exTemplateC4.file_order.length < 65536 ∧
    (∃ T2 : CabLayoutTemplate,
      (build_ce_cab_bytes id id exArchiveC4 false
        (some exTemplateC4) true).toOption.bind parse_cab_layout = some T2 ∧
      T2.set_id = exTemplateC4.set_id ∧
      T2.cb_cfheader = exTemplateC4.cb_cfheader ∧
      T2.cb_cffolder = exTemplateC4.cb_cffolder ∧
      T2.cb_cfdata = exTemplateC4.cb_cfdata ∧
      T2.header_reserve = exTemplateC4.header_reserve ∧
      T2.file_order = exTemplateC4.file_order ∧
      T2.folder_reserves =
        (build_folders id exArchiveC4 exTemplateC4.file_order exTemplateC4
          false).map FolderBuild.reserve ∧
      (∀ f ∈ build_folders id exArchiveC4 exTemplateC4.file_order exTemplateC4
          false,
        f.folder_key < exTemplateC4.folder_reserves.length →
        (exTemplateC4.folder_reserves.getD f.folder_key []).length =
          exTemplateC4.cb_cffolder →
        f.reserve = exTemplateC4.folder_reserves.getD f.folder_key []) ∧
      (∀ n1 ∈ exTemplateC4.file_order, ∀ n2 ∈ exTemplateC4.file_order,
        (assocGet T2.file_folders n1 = assocGet T2.file_folders n2 ↔
          assocGet exTemplateC4.file_folders n1 =
            assocGet exTemplateC4.file_folders n2))) :=
  ⟨by decide, by decide, by decide, rfl, by decide, by decide, by decide,
    by decide, by decide, by decide, by decide, by decide, by decide,
    C4_roundtrip_preserves_layout id id exArchiveC4 exTemplateC4 false true
      (by decide) (by decide) (by decide) rfl (by decide) (by decide)
      (by decide) (by decide) (by decide) (by decide) (by decide) (by decide)
      (by decide)⟩

/-- Witness for C9: `exTC` is one wall-clock second after `exTA` yet shares
its DOS stamps, so two consecutive builds of the manifest example agree. -/
theorem C9_idempotent_resync_witness :
    dosDate exTA = dosDate exTC ∧ dosTime exTA = dosTime exTC ∧
    (CabEditor.build_cab_bytes id id
        (CabEditor.build_cab_bytes id id edC9 false exTA).state false exTC).out =
      (CabEditor.build_cab_bytes id id edC9 false exTA).out :=
  ⟨by decide, by decide,
    C9_idempotent_resync id id edC9 false exTA exTC (by decide) (by decide)⟩

end CabinetForge
